import Mathlib

/-!
Verification of the scrawler book-crawler scripts
(`scrape_btc_book.py`, `scrape_eth_book.py`, `scrape_zk_book.py`).

The Python sources are shallowly embedded below.  External effects are made
explicit:

* the filesystem is a list of `(path, contents)` pairs, newest write first;
* the network is a pure oracle passed in as a function (`netText` for
  `fetch_text`, `netSoup` for `fetch_soup`, `net` for the streamed asset
  `session.get`).  Network calls performed by the code are recorded in a
  trace so that "no network call is made" claims can be stated;
* `int(time.time()*1000)` is modelled by a monotone counter `clock` that the
  code reads and bumps exactly where the Python evaluates the timestamp;
* the asset download has two failure shapes.  `StreamOutcome` is the full
  model of one streamed `session.get` plus the body consumption of the 200
  branch: a completed answer (`ok status body`), an exception raised at the
  request itself (`exn`), or an exception raised while iterating
  `iter_content`/writing chunks (`midstream partialBody`) — in the source
  `open(local_path, 'wb')` has already created the file at that point, so
  the partially written file stays on disk.  `download_asset_btc_streamed` /
  `download_asset_eth_streamed` embed the source over this full model.
  `FetchResult` (`ok`/`exn` only) is its restriction to complete or
  pre-request-failure outcomes — the reliable-write baseline used by the
  claims that are not about write failure; `download_asset_btc_agrees` /
  `download_asset_eth_agrees` prove the baseline functions are exactly the
  streamed embedding run on such outcomes.

Library routines used by the scripts (`urllib.parse.urlparse`, `unquote`,
`os.path.basename`, `urljoin`, the `re` engine for the concrete patterns
appearing in the sources, `str.replace`, BeautifulSoup, markdownify) are
modelled at the level the scripts rely on: `urljoin` and the parsed-HTML
("soup") values are abstract parameters, the rest are implemented below.
`unquote` is modelled at the single-byte level (multi-byte UTF-8 percent
sequences are out of scope for every claim considered).
-/

namespace Scrawler

/-- The filesystem: association list from path to contents, newest first. -/
abbrev FS := List (String × String)

/-- Read a file: the most recent write at that path, if any. -/
def FS.readFile (fs : FS) (p : String) : Option String :=
  (fs.find? (fun e => e.1 == p)).map (fun e => e.2)

/-- `os.path.exists`. -/
def FS.pathExists (fs : FS) (p : String) : Bool :=
  (fs.readFile p).isSome

/-- Write (create or overwrite) a file. -/
def FS.write (fs : FS) (p c : String) : FS :=
  (p, c) :: fs

/-- Mutable process state threaded through the embedded code: the filesystem,
the millisecond clock read by `int(time.time()*1000)`, and the trace of
network requests issued so far (instrumentation, not program state). -/
structure St where
  fs : FS
  clock : Nat
  calls : List String
deriving Repr, DecidableEq

/-- Result of one streamed `session.get` under the reliable-write baseline:
a status/body answer whose body streams completely, or a `requests`
exception raised at the request (before any file is created). -/
inductive FetchResult where
  | ok (status : Nat) (body : String)
  | exn
deriving Repr, DecidableEq

/-- Full outcome of one streamed `session.get` together with the body
consumption performed by the 200 branch.  `midstream partialBody` is an
exception raised while iterating `resp.iter_content` or writing a chunk:
the response status was 200 and `open(local_path, 'wb')` already ran, so
the local file exists and holds the chunks written so far (`partialBody`)
when the `except` clause catches the error.  `exn` is an exception at the
request itself — no file has been created. -/
inductive StreamOutcome where
  | ok (status : Nat) (body : String)
  | exn
  | midstream (partialBody : String)
deriving Repr, DecidableEq

/-- A baseline outcome is a full outcome in which streaming never fails
midway. -/
def FetchResult.toStream : FetchResult → StreamOutcome
  | FetchResult.ok s b => StreamOutcome.ok s b
  | FetchResult.exn => StreamOutcome.exn

/-! ### Character/string helpers (models of the Python library calls) -/

/-- `needle` is a prefix of `hay` (on char lists). -/
def listIsPre : List Char → List Char → Bool
  | [], _ => true
  | _ :: _, [] => false
  | a :: as, b :: bs => a == b && listIsPre as bs

/-- `s.startswith(p)`. -/
def strStartsWith (s p : String) : Bool :=
  listIsPre p.data s.data

/-- `p in s` (Python substring containment). -/
def strContainsSub (s p : String) : Bool :=
  (List.range (s.data.length + 1)).any fun i => listIsPre p.data (s.data.drop i)

/-- `c in s` for a single character. -/
def strContainsChar (s : String) (c : Char) : Bool :=
  s.data.contains c

/-- `os.path.basename`: everything after the last `/`. -/
def basename (s : String) : String :=
  ⟨((s.data.reverse.takeWhile (fun c => c ≠ '/')).reverse)⟩

/-- Value of a hex digit, if it is one. -/
def hexVal (c : Char) : Option Nat :=
  if '0' ≤ c ∧ c ≤ '9' then some (c.toNat - 48)
  else if 'a' ≤ c ∧ c ≤ 'f' then some (c.toNat - 87)
  else if 'A' ≤ c ∧ c ≤ 'F' then some (c.toNat - 55)
  else none

/-- `urllib.parse.unquote`, byte-level: each valid `%XX` becomes the character
with that code; an invalid escape is kept verbatim. -/
def percentDecodeAux : List Char → List Char
  | [] => []
  | '%' :: a :: b :: r =>
    match hexVal a, hexVal b with
    | some x, some y => Char.ofNat (16 * x + y) :: percentDecodeAux r
    | _, _ => '%' :: percentDecodeAux (a :: b :: r)
  | c :: r => c :: percentDecodeAux r

def percentDecode (s : String) : String :=
  ⟨percentDecodeAux s.data⟩

/-- Split a char list at the first occurrence of `"://"`. -/
def splitScheme : List Char → Option (List Char × List Char)
  | [] => none
  | ':' :: '/' :: '/' :: r => some ([], r)
  | c :: r =>
    match splitScheme r with
    | some (a, b) => some (c :: a, b)
    | none => none

/-- The path component of `urlparse(url)`, for the `scheme://netloc/path`
shapes handled by the scripts: the fragment (after `#`) and query (after `?`)
are cut off, then scheme and network location are dropped.  A reference
without `://` is treated as all path. -/
def urlPath (url : String) : String :=
  let s := url.data.takeWhile (fun c => c ≠ '#')
  let s := s.takeWhile (fun c => c ≠ '?')
  match splitScheme s with
  | some (_, rest) => ⟨rest.dropWhile (fun c => c ≠ '/')⟩
  | none => ⟨s⟩

/-- The character class `[a-zA-Z0-9._-]` of the sanitization regex. -/
def isSafeChar (c : Char) : Bool :=
  c.isAlphanum || c == '.' || c == '_' || c == '-'

/-- `re.sub(r'[^a-zA-Z0-9._-]', '_', s)`: each character outside the class
becomes one underscore; runs are NOT collapsed. -/
def sanitizeChars : List Char → List Char
  | [] => []
  | c :: r => (if isSafeChar c then c else '_') :: sanitizeChars r

def sanitizeName (s : String) : String :=
  ⟨sanitizeChars s.data⟩

/-! ### Decimal rendering (model of Python `%d` / f-string formatting) -/

/-- Little-endian decimal digits of `n` (`fuel ≥ n` suffices; empty for 0). -/
def natDigitsRev : Nat → Nat → List Nat
  | 0, _ => []
  | fuel + 1, n => if n = 0 then [] else (n % 10) :: natDigitsRev fuel (n / 10)

def digitToChar (d : Nat) : Char :=
  Char.ofNat (48 + d)

/-- Decimal rendering of a natural number, as Python `str`/`%d` produce it. -/
def pyNatRepr (n : Nat) : String :=
  if n = 0 then "0" else ⟨((natDigitsRev n n).reverse).map digitToChar⟩

/-- `f"{n:02d}"`: decimal, zero-padded on the left to width 2. -/
def pad2 (n : Nat) : String :=
  let s := pyNatRepr n
  if s.data.length < 2 then "0" ++ s else s


/-! ### Chapter filenames of the eth/zk crawlers
(scrape_eth_book.py lines 169-178, scrape_zk_book.py lines 174-179) -/

/-- One character of `re.sub(r'[^a-zA-Z0-9]', '_', title)`. -/
def ethReplaceChar (c : Char) : Char :=
  if c.isAlphanum then c else '_'

/-- `re.sub(r'_+', '_', s)`: every run of underscores becomes a single one.
The flag records whether the scan is inside an underscore run. -/
def collapseUnderscoresAux : Bool → List Char → List Char
  | _, [] => []
  | inRun, c :: r =>
    if c = '_' then
      if inRun then collapseUnderscoresAux true r
      else '_' :: collapseUnderscoresAux true r
    else c :: collapseUnderscoresAux false r

def collapseUnderscores (l : List Char) : List Char :=
  collapseUnderscoresAux false l

/-- `.strip('_')`. -/
def stripUnderscores (l : List Char) : List Char :=
  ((l.dropWhile (fun c => c = '_')).reverse.dropWhile (fun c => c = '_')).reverse

/-- `safe_title` as computed in the index loop of `EthBookCrawler.scrape` /
`ZKBookCrawler.scrape`: replace non-alphanumerics by underscores, lowercase,
collapse underscore runs, strip outer underscores. -/
def ethSafeTitle (title : String) : String :=
  ⟨stripUnderscores (collapseUnderscores ((title.data.map ethReplaceChar).map Char.toLower))⟩

/-- `filename = f"{idx+1:02d}_{safe_title}.md"`. -/
def ethFilename (idx : Nat) (title : String) : String :=
  pad2 (idx + 1) ++ "_" ++ ethSafeTitle title ++ ".md"


/-! ### `BtcBookCrawler.download_asset` (scrape_btc_book.py lines 44-89) -/

/-- URL resolution block of `BtcBookCrawler.download_asset` (lines 49-57).
`join` is `urllib.parse.urljoin`, kept abstract. -/
def resolve_url_btc (join : String → String → String) (baseUrl imgUrl : String)
    (pageUrl : Option String) : String :=
  if !(strStartsWith imgUrl "http") then
    match pageUrl with
    | some p => join p imgUrl
    | none => join baseUrl imgUrl
  else imgUrl

/-- `os.path.basename(unquote(parsed.path))` (line 62), applied to the path
component of the resolved URL. -/
def rawNameBtc (path : String) : String :=
  basename (percentDecode path)

/-- The `filename` value of lines 62-64 is degenerate and replaced by the
timestamp fallback. -/
def fallbackTriggered (nm : String) : Bool :=
  nm.data.isEmpty || !(strContainsChar nm '.')

/-- `f"image_{int(time.time()*1000)}.png"` with the clock value `t`. -/
def fallbackName (t : Nat) : String :=
  "image_" ++ pyNatRepr t ++ ".png"

/-- Lines 60-67: derived local filename for an asset whose resolved URL has
path component `path`, given the current clock value `t`. -/
def deriveFilenameBtc (t : Nat) (path : String) : String :=
  let nm := rawNameBtc path
  sanitizeName (if fallbackTriggered nm then fallbackName t else nm)

/-- `os.path.join(self.assets_dir, filename)` where
`assets_dir = os.path.join(output_dir, "assets")`. -/
def assetsLocalPath (outputDir fname : String) : String :=
  (outputDir ++ "/assets") ++ "/" ++ fname

/-- `os.path.join(ASSETS_DIR, filename)`. -/
def assetsRelPath (fname : String) : String :=
  "assets" ++ "/" ++ fname

/-- `BtcBookCrawler.download_asset` (lines 44-89).  Returns the string put in
place of the reference, and the updated state. -/
def download_asset_btc (join : String → String → String) (net : String → FetchResult)
    (baseUrl outputDir : String) (st : St) (imgUrl : String) (pageUrl : Option String) :
    String × St :=
  if imgUrl = "" then ("", st)
  else
    let fullImgUrl := resolve_url_btc join baseUrl imgUrl pageUrl
    let nm := rawNameBtc (urlPath fullImgUrl)
    let st1 := if fallbackTriggered nm then { st with clock := st.clock + 1 } else st
    let filename := deriveFilenameBtc st.clock (urlPath fullImgUrl)
    let localPath := assetsLocalPath outputDir filename
    let relativePath := assetsRelPath filename
    if st1.fs.pathExists localPath then (relativePath, st1)
    else
      match net fullImgUrl with
      | FetchResult.ok s body =>
        if s = 200 then
          (relativePath,
           { st1 with fs := st1.fs.write localPath body, calls := st1.calls ++ [fullImgUrl] })
        else (imgUrl, { st1 with calls := st1.calls ++ [fullImgUrl] })
      | FetchResult.exn => (imgUrl, { st1 with calls := st1.calls ++ [fullImgUrl] })

/-- `BtcBookCrawler.download_asset` (lines 44-89) over the full streamed
model.  The 200 branch runs `open(local_path, 'wb')` and then writes the
body chunk by chunk, so an exception raised while streaming or writing
(`StreamOutcome.midstream`) is caught by the `except Exception` clause —
the original reference is returned — but the partially written file stays
under the assets directory. -/
def download_asset_btc_streamed (join : String → String → String)
    (net : String → StreamOutcome) (baseUrl outputDir : String) (st : St)
    (imgUrl : String) (pageUrl : Option String) : String × St :=
  if imgUrl = "" then ("", st)
  else
    let fullImgUrl := resolve_url_btc join baseUrl imgUrl pageUrl
    let nm := rawNameBtc (urlPath fullImgUrl)
    let st1 := if fallbackTriggered nm then { st with clock := st.clock + 1 } else st
    let filename := deriveFilenameBtc st.clock (urlPath fullImgUrl)
    let localPath := assetsLocalPath outputDir filename
    let relativePath := assetsRelPath filename
    if st1.fs.pathExists localPath then (relativePath, st1)
    else
      match net fullImgUrl with
      | StreamOutcome.ok s body =>
        if s = 200 then
          (relativePath,
           { st1 with fs := st1.fs.write localPath body, calls := st1.calls ++ [fullImgUrl] })
        else (imgUrl, { st1 with calls := st1.calls ++ [fullImgUrl] })
      | StreamOutcome.exn => (imgUrl, { st1 with calls := st1.calls ++ [fullImgUrl] })
      | StreamOutcome.midstream partialBody =>
        (imgUrl,
         { st1 with fs := st1.fs.write localPath partialBody,
                    calls := st1.calls ++ [fullImgUrl] })

/-! ### `EthBookCrawler.download_asset` (scrape_eth_book.py lines 49-89)
Differences from the btc variant: `page_url` is mandatory and the filename is
taken from `parsed.path` without `unquote`. -/

def deriveFilenameEth (t : Nat) (path : String) : String :=
  let nm := basename path
  sanitizeName (if fallbackTriggered nm then fallbackName t else nm)

/-- URL resolution of `EthBookCrawler.download_asset` (lines 57-58): the
page URL is always the base of a relative reference. -/
def resolve_url_eth (join : String → String → String) (pageUrl imgUrl : String) : String :=
  if !(strStartsWith imgUrl "http") then join pageUrl imgUrl else imgUrl

def download_asset_eth (join : String → String → String) (net : String → FetchResult)
    (outputDir : String) (st : St) (imgUrl pageUrl : String) : String × St :=
  if imgUrl = "" then ("", st)
  else
    let fullImgUrl := resolve_url_eth join pageUrl imgUrl
    let nm := basename (urlPath fullImgUrl)
    let st1 := if fallbackTriggered nm then { st with clock := st.clock + 1 } else st
    let filename := deriveFilenameEth st.clock (urlPath fullImgUrl)
    let localPath := assetsLocalPath outputDir filename
    let relativePath := assetsRelPath filename
    if st1.fs.pathExists localPath then (relativePath, st1)
    else
      match net fullImgUrl with
      | FetchResult.ok s body =>
        if s = 200 then
          (relativePath,
           { st1 with fs := st1.fs.write localPath body, calls := st1.calls ++ [fullImgUrl] })
        else (imgUrl, { st1 with calls := st1.calls ++ [fullImgUrl] })
      | FetchResult.exn => (imgUrl, { st1 with calls := st1.calls ++ [fullImgUrl] })

/-- `EthBookCrawler.download_asset` (lines 49-89) over the full streamed
model, with the same mid-stream behaviour as
`download_asset_btc_streamed`: the file opened by the 200 branch remains,
partially written, when streaming or writing raises. -/
def download_asset_eth_streamed (join : String → String → String)
    (net : String → StreamOutcome) (outputDir : String) (st : St)
    (imgUrl pageUrl : String) : String × St :=
  if imgUrl = "" then ("", st)
  else
    let fullImgUrl := resolve_url_eth join pageUrl imgUrl
    let nm := basename (urlPath fullImgUrl)
    let st1 := if fallbackTriggered nm then { st with clock := st.clock + 1 } else st
    let filename := deriveFilenameEth st.clock (urlPath fullImgUrl)
    let localPath := assetsLocalPath outputDir filename
    let relativePath := assetsRelPath filename
    if st1.fs.pathExists localPath then (relativePath, st1)
    else
      match net fullImgUrl with
      | StreamOutcome.ok s body =>
        if s = 200 then
          (relativePath,
           { st1 with fs := st1.fs.write localPath body, calls := st1.calls ++ [fullImgUrl] })
        else (imgUrl, { st1 with calls := st1.calls ++ [fullImgUrl] })
      | StreamOutcome.exn => (imgUrl, { st1 with calls := st1.calls ++ [fullImgUrl] })
      | StreamOutcome.midstream partialBody =>
        (imgUrl,
         { st1 with fs := st1.fs.write localPath partialBody,
                    calls := st1.calls ++ [fullImgUrl] })

/-! ### TOC link extraction of the btc crawler:
`re.findall(r'\[(.*?)\]\((.*?\.md)\)', text)` (scrape_btc_book.py line 103). -/

/-- Lazy match of the tail `(.*?\.md)\)`: consume the shortest group that
ends in `.md` and is followed by `)`; `.` never matches a newline.  `racc`
is the group consumed so far, reversed. -/
def parseHrefAux : List Char → List Char → Option (List Char × List Char)
  | _, [] => none
  | racc, c :: r =>
    if c = ')' ∧ racc.take 3 = ['d', 'm', '.'] then some (racc.reverse, r)
    else if c = '\n' then none
    else parseHrefAux (c :: racc) r

/-- Lazy match of `(.*?)\]\((.*?\.md)\)` after the opening `[`: the shortest
title whose closing `]` is directly followed by `(` and a successful href
match wins; otherwise the engine backtracks past that `]`. -/
def parseBrkAux : List Char → List Char → Option (String × String × List Char)
  | _, [] => none
  | racc, c :: r =>
    if c = '\n' then none
    else if c = ']' ∧ r.head? = some '(' then
      match parseHrefAux [] r.tail with
      | some (h, r3) => some (⟨racc.reverse⟩, ⟨h⟩, r3)
      | none => parseBrkAux (c :: racc) r
    else parseBrkAux (c :: racc) r

/-- `re.findall`: scan left to right, resuming after each match. -/
def findAllAux : Nat → List Char → List (String × String)
  | 0, _ => []
  | _, [] => []
  | fuel + 1, c :: r =>
    if c = '[' then
      match parseBrkAux [] r with
      | some (t, h, rest) => (t, h) :: findAllAux fuel rest
      | none => findAllAux fuel r
    else findAllAux fuel r

def findMdLinks (text : String) : List (String × String) :=
  findAllAux text.data.length text.data

/-- A chapter descriptor: btc fills all three fields in `get_toc`; eth/zk
fill `filename` later, in the index loop of `scrape`. -/
structure Chapter where
  title : String
  url : String
  filename : String
deriving Repr, DecidableEq

/-- `href.lstrip('(')`. -/
def lstripParen (s : String) : String :=
  ⟨s.data.dropWhile (fun c => c = '(')⟩

/-- `BtcBookCrawler.get_toc` (lines 91-127). -/
def get_toc_btc (netText : String → Option String) (join : String → String → String)
    (baseUrl readmeUrl : String) : List Chapter :=
  match netText readmeUrl with
  | none => []
  | some text =>
    if text = "" then []
    else
      (findMdLinks text).filterMap fun th =>
        let href := lstripParen th.2
        if strContainsSub href "README.md" then none
        else if strStartsWith href "http" then none
        else some { title := th.1, url := join baseUrl href, filename := href }

/-! ### `BtcBookCrawler.process_content` (lines 129-157): the two
substitutions `re.sub(r'!\[(.*?)\]\((.*?)\)', replacer, content)` and
`re.sub(r'<img[^>]+>', img_tag_replacer, content)`. -/

/-- Lazy match of `(.*?)\)`: shortest group before a closing paren. -/
def parseToParenAux : List Char → List Char → Option (List Char × List Char)
  | _, [] => none
  | racc, c :: r =>
    if c = ')' then some (racc.reverse, r)
    else if c = '\n' then none
    else parseToParenAux (c :: racc) r

/-- Lazy match of `(.*?)\]\((.*?)\)` after the opening `![`. -/
def parseMdBrk : List Char → List Char → Option (String × String × List Char)
  | _, [] => none
  | racc, c :: r =>
    if c = '\n' then none
    else if c = ']' ∧ r.head? = some '(' then
      match parseToParenAux [] r.tail with
      | some (s, r3) => some (⟨racc.reverse⟩, ⟨s⟩, r3)
      | none => parseMdBrk (c :: racc) r
    else parseMdBrk (c :: racc) r

/-- One pass of the markdown-image substitution with its `replacer` closure
(lines 132-140), which rewrites each match to
`f"![{alt_text}]({download_asset(img_src, page_url)})"`. -/
def mdImgSubAux (join : String → String → String) (net : String → FetchResult)
    (baseUrl outputDir pageUrl : String) : Nat → List Char → St → List Char × St
  | 0, l, st => (l, st)
  | _ + 1, [], st => ([], st)
  | fuel + 1, c :: r, st =>
    if c = '!' then
      match r with
      | '[' :: r2 =>
        (match parseMdBrk [] r2 with
         | some (alt, src, rest) =>
           let res := download_asset_btc join net baseUrl outputDir st src (some pageUrl)
           let tl := mdImgSubAux join net baseUrl outputDir pageUrl fuel rest res.2
           (("![" ++ alt ++ "](" ++ res.1 ++ ")").data ++ tl.1, tl.2)
         | none =>
           let tl := mdImgSubAux join net baseUrl outputDir pageUrl fuel r st
           (c :: tl.1, tl.2))
      | _ =>
        let tl := mdImgSubAux join net baseUrl outputDir pageUrl fuel r st
        (c :: tl.1, tl.2)
    else
      let tl := mdImgSubAux join net baseUrl outputDir pageUrl fuel r st
      (c :: tl.1, tl.2)

/-- The character class `["\"]` of the raw pattern `src=["\"](.*?)["\"]`:
a double quote or a backslash. -/
def isQuoteChar (c : Char) : Bool :=
  c == '"' || c == '\\'

/-- Lazy group of `src=["\"](.*?)["\"]`. -/
def takeToQuote : List Char → List Char → Option (List Char)
  | _, [] => none
  | racc, c :: r =>
    if isQuoteChar c then some racc.reverse
    else if c = '\n' then none
    else takeToQuote (c :: racc) r

/-- `re.search(r'src=["\"](.*?)["\"]', tag)`: the leftmost match wins. -/
def srcSearch : List Char → Option (List Char)
  | 's' :: 'r' :: 'c' :: '=' :: q :: rest =>
    if isQuoteChar q then
      match takeToQuote [] rest with
      | some src => some src
      | none => srcSearch ('r' :: 'c' :: '=' :: q :: rest)
    else srcSearch ('r' :: 'c' :: '=' :: q :: rest)
  | _ :: r => srcSearch r
  | [] => none

/-- Python `str.replace(old, new)`: every occurrence, left to right; an empty
`old` inserts `new` at every boundary. -/
def strReplaceAux (old new : List Char) : Nat → List Char → List Char
  | 0, l => l
  | _ + 1, [] => []
  | fuel + 1, c :: r =>
    if listIsPre old (c :: r) then new ++ strReplaceAux old new fuel ((c :: r).drop old.length)
    else c :: strReplaceAux old new fuel r

def strReplace (s old new : List Char) : List Char :=
  if old = [] then new ++ s.foldr (fun c acc => c :: (new ++ acc)) []
  else strReplaceAux old new s.length s

/-- The `img_tag_replacer` closure (lines 145-153). -/
def imgTagReplace (join : String → String → String) (net : String → FetchResult)
    (baseUrl outputDir pageUrl : String) (tag : List Char) (st : St) : List Char × St :=
  match srcSearch tag with
  | some src =>
    let res := download_asset_btc join net baseUrl outputDir st ⟨src⟩ (some pageUrl)
    (strReplace tag src res.1.data, res.2)
  | none => (tag, st)

/-- One pass of the `<img[^>]+>` substitution (line 155). -/
def imgTagSubAux (join : String → String → String) (net : String → FetchResult)
    (baseUrl outputDir pageUrl : String) : Nat → List Char → St → List Char × St
  | 0, l, st => (l, st)
  | _ + 1, [], st => ([], st)
  | fuel + 1, c :: r, st =>
    if c = '<' then
      match r with
      | 'i' :: 'm' :: 'g' :: r2 =>
        let run := r2.takeWhile (fun d => d ≠ '>')
        let rest := r2.drop run.length
        if run ≠ [] ∧ rest.head? = some '>' then
          let tag := '<' :: 'i' :: 'm' :: 'g' :: (run ++ ['>'])
          let rep := imgTagReplace join net baseUrl outputDir pageUrl tag st
          let tl := imgTagSubAux join net baseUrl outputDir pageUrl fuel rest.tail rep.2
          (rep.1 ++ tl.1, tl.2)
        else
          let tl := imgTagSubAux join net baseUrl outputDir pageUrl fuel r st
          (c :: tl.1, tl.2)
      | _ =>
        let tl := imgTagSubAux join net baseUrl outputDir pageUrl fuel r st
        (c :: tl.1, tl.2)
    else
      let tl := imgTagSubAux join net baseUrl outputDir pageUrl fuel r st
      (c :: tl.1, tl.2)

/-- `BtcBookCrawler.process_content` (lines 129-157). -/
def process_content_btc (join : String → String → String) (net : String → FetchResult)
    (baseUrl outputDir : String) (content pageUrl : String) (st : St) : String × St :=
  let s1 := mdImgSubAux join net baseUrl outputDir pageUrl content.data.length content.data st
  let s2 := imgTagSubAux join net baseUrl outputDir pageUrl s1.1.length s1.1 s1.2
  (⟨s2.1⟩, s2.2)

/-! ### `BtcBookCrawler.scrape` (lines 159-199) -/

def indexContentBtc (chapters : List Chapter) : String :=
  "# Learning Bitcoin from the Command Line\n\n" ++
  "Scraped from [GitHub](https://github.com/BlockchainCommons/Learning-Bitcoin-from-the-Command-Line)\n\n" ++
  String.join (chapters.map fun c => "- [" ++ c.title ++ "](" ++ c.filename ++ ")\n")

/-- `os.path.join(self.output_dir, os.path.basename(chapter['filename']))`
(lines 191-193). -/
def chapterWritePathBtc (outputDir : String) (c : Chapter) : String :=
  outputDir ++ "/" ++ basename c.filename

def processChapterBtc (join : String → String → String) (netText : String → Option String)
    (net : String → FetchResult) (baseUrl outputDir : String) (st : St) (c : Chapter) : St :=
  match netText c.url with
  | none => st
  | some content =>
    if content = "" then st
    else
      let pc := process_content_btc join net baseUrl outputDir content c.url st
      let full := "<!-- Source: " ++ c.url ++ " -->\n\n" ++ pc.1
      { pc.2 with fs := pc.2.fs.write (chapterWritePathBtc outputDir c) full }

def scrape_btc (join : String → String → String) (netText : String → Option String)
    (net : String → FetchResult) (baseUrl readmeUrl outputDir : String) (st : St) : St :=
  let chapters := get_toc_btc netText join baseUrl readmeUrl
  if chapters = [] then st
  else
    let st1 := { st with fs := st.fs.write (outputDir ++ "/README.md") (indexContentBtc chapters) }
    chapters.foldl (processChapterBtc join netText net baseUrl outputDir) st1

/-! ### The eth crawler (scrape_eth_book.py)

BeautifulSoup and markdownify are external libraries; a parsed page is
abstracted into the interface the script uses: `content sel` is
`soup.select_one(sel)` rendered as the stream of markdown pieces and images
the converter walks over, `sidebarLinks` is the result of
`soup.find('nav', id='sidebar')` + `select('ol.chapter li.chapter-item a')`
as `(href attribute, link text)` pairs (`none` when the sidebar is absent).
A fetch failure or falsy soup is `netSoup url = none`. -/

inductive Elem where
  | text (s : String)
  | img (src alt : String)
  | headerLink (s : String)
deriving Repr, DecidableEq

def Elem.isHeader : Elem → Bool
  | .headerLink _ => true
  | _ => false

structure Soup where
  content : String → Option (List Elem)
  sidebarLinks : Option (List (Option String × String))

structure TocEntry where
  title : String
  url : String
deriving Repr, DecidableEq

/-- `EthBookCrawler.get_toc` (lines 91-131). -/
def get_toc_eth (netSoup : String → Option Soup) (join : String → String → String)
    (tocUrl : String) : List TocEntry :=
  match netSoup tocUrl with
  | none => []
  | some soup =>
    match soup.sidebarLinks with
    | none => []
    | some links =>
      links.filterMap fun le =>
        match le.1 with
        | none => none
        | some href =>
          if strStartsWith href "#" then none
          else some { title := le.2, url := join tocUrl href }

/-- `MarkdownConverter.convert_soup` with the `ImageDownloaderConverter`
override: each image becomes `f"![{alt}]({download_asset(src, page_url)})"`,
every other piece contributes its markdown text. -/
def convertElems (join : String → String → String) (net : String → FetchResult)
    (outputDir pageUrl : String) (elems : List Elem) (st : St) : String × St :=
  elems.foldl (fun acc e =>
    match e with
    | Elem.text s => (acc.1 ++ s, acc.2)
    | Elem.img src alt =>
      let res := download_asset_eth join net outputDir acc.2 src pageUrl
      (acc.1 ++ "![" ++ alt ++ "](" ++ res.1 ++ ")", res.2)
    | Elem.headerLink _ => acc) ("", st)

/-- `EthBookCrawler.convert_to_markdown` (lines 133-157): select the content
region, drop the `a.header` anchors (`decompose`), convert the rest. -/
def convert_to_markdown_eth (join : String → String → String) (net : String → FetchResult)
    (outputDir : String) (soup : Soup) (selector pageUrl : String) (st : St) : String × St :=
  match soup.content selector with
  | none => ("", st)
  | some elems =>
    convertElems join net outputDir pageUrl (elems.filter (fun e => !(e.isHeader))) st

/-- The filename assignment of the index loop (lines 169-178). -/
def assignFilenamesEth (l : List TocEntry) : List Chapter :=
  l.enum.map fun p => { title := p.2.title, url := p.2.url, filename := ethFilename p.1 p.2.title }

/-- The chapter list as it stands after the index loop of `scrape`. -/
def ethChapters (netSoup : String → Option Soup) (join : String → String → String)
    (tocUrl : String) : List Chapter :=
  assignFilenamesEth (get_toc_eth netSoup join tocUrl)

/-- The full text written to `README.md` by the index block (lines 166-182). -/
def indexContentEth (tocUrl : String) (chs : List Chapter) : String :=
  "# Mastering Ethereum\n\n" ++
  String.join (chs.map fun c => "- [" ++ c.title ++ "](" ++ c.filename ++ ")\n") ++
  ("Scraped from [" ++ tocUrl ++ "](" ++ tocUrl ++ ")\n\n")

/-- One iteration of the chapter loop (lines 185-208). -/
def processChapterEth (join : String → String → String) (netSoup : String → Option Soup)
    (net : String → FetchResult) (outputDir : String) (st : St) (c : Chapter) : St :=
  match netSoup c.url with
  | none => st
  | some soup =>
    let conv := convert_to_markdown_eth join net outputDir soup "main" c.url st
    let content := if conv.1 = "" then "*Error: Could not extract content.*" else conv.1
    let full := "# " ++ c.title ++ "\n\nSource: " ++ c.url ++ "\n\n" ++ content
    { conv.2 with fs := conv.2.fs.write (outputDir ++ "/" ++ c.filename) full }

/-- `EthBookCrawler.scrape` (lines 159-210). -/
def scrape_eth (join : String → String → String) (netSoup : String → Option Soup)
    (net : String → FetchResult) (tocUrl outputDir : String) (st : St) : St :=
  let toc := get_toc_eth netSoup join tocUrl
  if toc = [] then st
  else
    let chs := assignFilenamesEth toc
    let st1 := { st with fs := st.fs.write (outputDir ++ "/README.md") (indexContentEth tocUrl chs) }
    chs.foldl (processChapterEth join netSoup net outputDir) st1

/-! ### Definitions modelled from the spec's words, for comparison -/

/-- The filename-sanitization step exactly as claim C3 words it: extract the
last path segment FIRST, then percent-decode it, then replace every character
outside `[A-Za-z0-9._-]` with `_` while collapsing consecutive replacement
characters into one.  Written from the spec, to be compared against
`deriveFilenameBtc`, which is the translation of the source. -/
def specReplaceCollapse : Bool → List Char → List Char
  | _, [] => []
  | prevRepl, c :: r =>
    if isSafeChar c then c :: specReplaceCollapse false r
    else if prevRepl then specReplaceCollapse true r
    else '_' :: specReplaceCollapse true r

def sanitizeSpecC3 (path : String) : String :=
  ⟨specReplaceCollapse false (percentDecode (basename path)).data⟩

/-! ## Supporting lemmas

All remaining declarations are theorems: first the generic supporting
lemmas, then one theorem (plus witness or counterexample) per claim. -/

/-! ### Facts about the decimal rendering -/

theorem natDigitsRev_eq_digits : ∀ fuel n, n ≤ fuel → natDigitsRev fuel n = Nat.digits 10 n := by
  intro fuel
  induction fuel with
  | zero =>
    intro n hn
    interval_cases n
    simp [natDigitsRev]
  | succ fuel ih =>
    intro n hn
    by_cases h0 : n = 0
    · simp [natDigitsRev, h0]
    · have hdiv : n / 10 ≤ fuel := by
        have : n / 10 < n := Nat.div_lt_self (Nat.pos_of_ne_zero h0) (by norm_num)
        omega
      rw [natDigitsRev, if_neg h0, ih _ hdiv,
        Nat.digits_def' (by norm_num : (1:ℕ) < 10) (Nat.pos_of_ne_zero h0)]

theorem pyNatRepr_eq (n : Nat) (hn : n ≠ 0) :
    pyNatRepr n = ⟨((Nat.digits 10 n).reverse).map digitToChar⟩ := by
  rw [pyNatRepr, if_neg hn, natDigitsRev_eq_digits n n le_rfl]

theorem digitToChar_inj_lt : ∀ d1 < 10, ∀ d2 < 10, digitToChar d1 = digitToChar d2 → d1 = d2 := by
  decide

theorem digitToChar_isDigit : ∀ d < 10, (digitToChar d).isDigit = true := by
  decide

theorem digitToChar_ne_zeroChar : ∀ d < 10, d ≠ 0 → digitToChar d ≠ '0' := by
  decide

theorem map_digitToChar_inj :
    ∀ l1 l2 : List Nat, (∀ d ∈ l1, d < 10) → (∀ d ∈ l2, d < 10) →
      l1.map digitToChar = l2.map digitToChar → l1 = l2 := by
  intro l1
  induction l1 with
  | nil =>
    intro l2 _ _ h
    cases l2 with
    | nil => rfl
    | cons b bs => simp at h
  | cons a as ih =>
    intro l2 h1 h2 h
    cases l2 with
    | nil => simp at h
    | cons b bs =>
      simp only [List.map_cons, List.cons.injEq] at h
      have ha : a = b := digitToChar_inj_lt a (h1 a (by simp)) b (h2 b (by simp)) h.1
      have : as = bs := ih bs (fun d hd => h1 d (by simp [hd])) (fun d hd => h2 d (by simp [hd])) h.2
      rw [ha, this]

theorem pyNatRepr_eq_zeroStr {m : Nat} (h : pyNatRepr m = "0") : m = 0 := by
  by_contra hm
  rw [pyNatRepr_eq m hm] at h
  have hd : ((Nat.digits 10 m).reverse).map digitToChar = ['0'] := congrArg String.data h
  obtain ⟨d, hdig⟩ : ∃ d, (Nat.digits 10 m).reverse = [d] := by
    rcases hr : (Nat.digits 10 m).reverse with _ | ⟨x, xs⟩
    · rw [hr] at hd; simp at hd
    · rw [hr] at hd
      simp only [List.map_cons, List.cons.injEq] at hd
      have hxs : xs = [] := List.map_eq_nil_iff.mp hd.2
      exact ⟨x, by rw [hxs]⟩
  have hmem : d ∈ Nat.digits 10 m := by
    have : d ∈ (Nat.digits 10 m).reverse := by rw [hdig]; simp
    simpa using this
  have hdlt : d < 10 := Nat.digits_lt_base (by norm_num) hmem
  have hchar : digitToChar d = '0' := by
    rw [hdig] at hd
    simpa using hd
  have hd0 : d = 0 := digitToChar_inj_lt d hdlt 0 (by norm_num) (by rw [hchar]; decide)
  have hdigits : Nat.digits 10 m = [0] := by
    have := congrArg List.reverse hdig
    simpa [hd0] using this
  have hof := Nat.ofDigits_digits 10 m
  rw [hdigits] at hof
  simp [Nat.ofDigits] at hof
  exact hm hof.symm

theorem pyNatRepr_inj {n m : Nat} (h : pyNatRepr n = pyNatRepr m) : n = m := by
  by_cases hn : n = 0 <;> by_cases hm : m = 0
  · omega
  · subst hn
    have : m = 0 := pyNatRepr_eq_zeroStr (by rw [← h]; rfl)
    omega
  · subst hm
    have : n = 0 := pyNatRepr_eq_zeroStr (by rw [h]; rfl)
    omega
  · rw [pyNatRepr_eq n hn, pyNatRepr_eq m hm] at h
    have hd : ((Nat.digits 10 n).reverse).map digitToChar
        = ((Nat.digits 10 m).reverse).map digitToChar := congrArg String.data h
    have hrev : (Nat.digits 10 n).reverse = (Nat.digits 10 m).reverse :=
      map_digitToChar_inj _ _
        (fun d hd' => Nat.digits_lt_base (by norm_num) (by simpa using hd'))
        (fun d hd' => Nat.digits_lt_base (by norm_num) (by simpa using hd')) hd
    have hdig : Nat.digits 10 n = Nat.digits 10 m := by
      have := congrArg List.reverse hrev
      simpa using this
    calc n = Nat.ofDigits 10 (Nat.digits 10 n) := (Nat.ofDigits_digits 10 n).symm
    _ = Nat.ofDigits 10 (Nat.digits 10 m) := by rw [hdig]
    _ = m := Nat.ofDigits_digits 10 m

theorem pyNatRepr_chars_digit (n : Nat) : ∀ c ∈ (pyNatRepr n).data, c.isDigit = true := by
  by_cases hn : n = 0
  · subst hn
    intro c hc
    have : c = '0' := by simpa [pyNatRepr] using hc
    rw [this]; decide
  · rw [pyNatRepr_eq n hn]
    intro c hc
    simp only [List.mem_map, List.mem_reverse] at hc
    obtain ⟨d, hd, rfl⟩ := hc
    exact digitToChar_isDigit d (Nat.digits_lt_base (by norm_num) hd)

theorem pyNatRepr_length (n : Nat) (hn : n ≠ 0) :
    (pyNatRepr n).data.length = Nat.log 10 n + 1 := by
  rw [pyNatRepr_eq n hn]
  show (((Nat.digits 10 n).reverse).map digitToChar).length = _
  rw [List.length_map, List.length_reverse, Nat.digits_len 10 n (by norm_num) hn]

theorem pyNatRepr_length_of_lt10 (n : Nat) (hn : n < 10) : (pyNatRepr n).data.length = 1 := by
  by_cases h0 : n = 0
  · subst h0; rfl
  · rw [pyNatRepr_length n h0, Nat.log_eq_zero_iff.mpr (Or.inl hn)]

theorem pyNatRepr_length_of_ge10 (n : Nat) (hn : 10 ≤ n) : 2 ≤ (pyNatRepr n).data.length := by
  rw [pyNatRepr_length n (by omega)]
  have := Nat.log_pos (b := 10) (by norm_num) hn
  omega

theorem pyNatRepr_head_ne_zero (n : Nat) (hn : 10 ≤ n) :
    ∃ c cs, (pyNatRepr n).data = c :: cs ∧ c ≠ '0' := by
  have hn0 : n ≠ 0 := by omega
  have hne : Nat.digits 10 n ≠ [] := Nat.digits_ne_nil_iff_ne_zero.mpr hn0
  have hlast : (Nat.digits 10 n).getLast hne ≠ 0 := Nat.getLast_digit_ne_zero 10 hn0
  have hmem : (Nat.digits 10 n).getLast hne ∈ Nat.digits 10 n := List.getLast_mem hne
  have hlt : (Nat.digits 10 n).getLast hne < 10 := Nat.digits_lt_base (by norm_num) hmem
  have hh : (pyNatRepr n).data.head? = some (digitToChar ((Nat.digits 10 n).getLast hne)) := by
    rw [pyNatRepr_eq n hn0]
    show (((Nat.digits 10 n).reverse).map digitToChar).head? = _
    rw [List.head?_map, List.head?_reverse, List.getLast?_eq_getLast _ hne]
    rfl
  rcases hdata : (pyNatRepr n).data with _ | ⟨c, cs⟩
  · rw [hdata] at hh; simp at hh
  · rw [hdata] at hh
    simp only [List.head?_cons, Option.some.injEq] at hh
    exact ⟨c, cs, rfl, by
      rw [hh]
      exact digitToChar_ne_zeroChar _ hlt hlast⟩

theorem pad2_inj {n m : Nat} (h : pad2 n = pad2 m) : n = m := by
  have hdata := congrArg String.data h
  by_cases hn10 : n < 10 <;> by_cases hm10 : m < 10
  · rw [pad2, pad2] at hdata
    simp only [pyNatRepr_length_of_lt10 n hn10, pyNatRepr_length_of_lt10 m hm10] at hdata
    norm_num [String.data_append] at hdata
    exact pyNatRepr_inj (String.ext hdata)
  · exfalso
    rw [pad2, pad2] at hdata
    simp only [pyNatRepr_length_of_lt10 n hn10] at hdata
    have h2 : ¬ (pyNatRepr m).data.length < 2 := by
      have := pyNatRepr_length_of_ge10 m (by omega); omega
    simp only [if_neg h2] at hdata
    norm_num [String.data_append] at hdata
    obtain ⟨c, cs, hm_eq, hc⟩ := pyNatRepr_head_ne_zero m (by omega)
    rw [hm_eq] at hdata
    exact hc (by
      have := congrArg List.head? hdata
      simpa using this.symm)
  · exfalso
    rw [pad2, pad2] at hdata
    simp only [pyNatRepr_length_of_lt10 m hm10] at hdata
    have h2 : ¬ (pyNatRepr n).data.length < 2 := by
      have := pyNatRepr_length_of_ge10 n (by omega); omega
    simp only [if_neg h2] at hdata
    norm_num [String.data_append] at hdata
    obtain ⟨c, cs, hn_eq, hc⟩ := pyNatRepr_head_ne_zero n (by omega)
    rw [hn_eq] at hdata
    exact hc (by
      have := congrArg List.head? hdata
      simpa using this)
  · rw [pad2, pad2] at hdata
    have h2n : ¬ (pyNatRepr n).data.length < 2 := by
      have := pyNatRepr_length_of_ge10 n (by omega); omega
    have h2m : ¬ (pyNatRepr m).data.length < 2 := by
      have := pyNatRepr_length_of_ge10 m (by omega); omega
    simp only [if_neg h2n, if_neg h2m] at hdata
    exact pyNatRepr_inj (String.ext hdata)

theorem pad2_chars_digit (n : Nat) : ∀ c ∈ (pad2 n).data, c.isDigit = true := by
  intro c hc
  rw [pad2] at hc
  by_cases h2 : (pyNatRepr n).data.length < 2
  · simp only [if_pos h2, String.data_append] at hc
    rcases List.mem_append.mp hc with h | h
    · have : c = '0' := by simpa using h
      rw [this]; decide
    · exact pyNatRepr_chars_digit n c h
  · simp only [if_neg h2] at hc
    exact pyNatRepr_chars_digit n c hc

theorem isDigit_ne_underscore {c : Char} (h : c.isDigit = true) : c ≠ '_' := by
  rintro rfl
  exact absurd h (by decide)

theorem isDigit_ne_slash {c : Char} (h : c.isDigit = true) : c ≠ '/' := by
  rintro rfl
  exact absurd h (by decide)

theorem takeWhile_append_all {p : Char → Bool} :
    ∀ l1 l2 : List Char, (∀ c ∈ l1, p c = true) →
      (l1 ++ l2).takeWhile p = l1 ++ l2.takeWhile p := by
  intro l1
  induction l1 with
  | nil => intro l2 _; simp
  | cons a as ih =>
    intro l2 h
    simp only [List.cons_append, List.takeWhile_cons, h a (by simp)]
    simp [ih l2 (fun c hc => h c (by simp [hc]))]

theorem ethFilename_takeWhile (idx : Nat) (title : String) :
    (ethFilename idx title).data.takeWhile (fun c => c != '_') = (pad2 (idx + 1)).data := by
  have hchars : ∀ c ∈ (pad2 (idx + 1)).data, (fun c => c != '_') c = true := by
    intro c hc
    simpa using isDigit_ne_underscore (pad2_chars_digit _ c hc)
  show ((pad2 (idx + 1) ++ "_" ++ ethSafeTitle title ++ ".md").data).takeWhile _ = _
  simp only [String.data_append, List.append_assoc]
  rw [takeWhile_append_all _ _ hchars]
  simp [List.takeWhile_cons]

/-- Distinct chapter positions get distinct filenames under the eth/zk naming
scheme: the zero-padded decimal index prefix before the first underscore
determines the position. -/
theorem ethFilename_inj {i j : Nat} {t t' : String} (h : ethFilename i t = ethFilename j t') :
    i = j := by
  have hdata : (ethFilename i t).data = (ethFilename j t').data := congrArg String.data h
  have htw := congrArg (List.takeWhile (fun c => c != '_')) hdata
  rw [ethFilename_takeWhile, ethFilename_takeWhile] at htw
  have : pad2 (i + 1) = pad2 (j + 1) := String.ext htw
  have := pad2_inj this
  omega

theorem pyNatRepr_ne_nil (n : Nat) : (pyNatRepr n).data ≠ [] := by
  intro h
  by_cases h0 : n = 0
  · subst h0; simp [pyNatRepr] at h
  · have hlen := congrArg List.length h
    rw [pyNatRepr_length n h0] at hlen
    simp at hlen

/-- `pad2` always renders at least one character. -/
theorem pad2_ne_nil (n : Nat) : (pad2 n).data ≠ [] := by
  rw [pad2]
  by_cases h2 : (pyNatRepr n).data.length < 2
  · simp only [if_pos h2, String.data_append]
    simp
  · simp only [if_neg h2]
    exact pyNatRepr_ne_nil n

/-- The first character of an eth/zk chapter filename is a decimal digit. -/
theorem ethFilename_head_digit (idx : Nat) (title : String) :
    ∃ c cs, (ethFilename idx title).data = c :: cs ∧ c.isDigit = true := by
  rcases hp : (pad2 (idx + 1)).data with _ | ⟨c, cs⟩
  · exact absurd hp (pad2_ne_nil _)
  · refine ⟨c, cs ++ ("_".data ++ ((ethSafeTitle title).data ++ ".md".data)), ?_, ?_⟩
    · rw [ethFilename]
      simp only [String.data_append, List.append_assoc, hp]
      simp
    · exact pad2_chars_digit _ c (by rw [hp]; simp)

/-! ### Filesystem lemmas -/

theorem FS.pathExists_write_self (fs : FS) (p c : String) :
    (fs.write p c).pathExists p = true := by
  simp [FS.pathExists, FS.readFile, FS.write, List.find?]

theorem FS.readFile_write_self (fs : FS) (p c : String) :
    (fs.write p c).readFile p = some c := by
  simp [FS.readFile, FS.write, List.find?]

theorem FS.readFile_write_ne (fs : FS) {p q : String} (c : String) (h : p ≠ q) :
    (fs.write q c).readFile p = fs.readFile p := by
  simp [FS.readFile, FS.write, List.find?, beq_eq_false_iff_ne.mpr (Ne.symm h)]

theorem FS.pathExists_write_ne (fs : FS) {p q : String} (c : String) (h : p ≠ q) :
    (fs.write q c).pathExists p = fs.pathExists p := by
  simp [FS.pathExists, FS.readFile_write_ne fs c h]

theorem FS.pathExists_write_mono (fs : FS) {p : String} (q c : String)
    (h : fs.pathExists p = true) : (fs.write q c).pathExists p = true := by
  by_cases hpq : p = q
  · subst hpq; exact fs.pathExists_write_self ..
  · rw [FS.pathExists_write_ne fs c hpq]; exact h

/-! ### Lemmas about the sanitization step -/

theorem sanitizeChars_eq_map (l : List Char) :
    sanitizeChars l = l.map (fun c => if isSafeChar c then c else '_') := by
  induction l with
  | nil => rfl
  | cons c r ih => simp [sanitizeChars, ih]

theorem sanitizeChars_all_safe (l : List Char) :
    ∀ c ∈ sanitizeChars l, isSafeChar c = true := by
  rw [sanitizeChars_eq_map]
  intro c hc
  obtain ⟨d, _, rfl⟩ := List.mem_map.mp hc
  by_cases hd : isSafeChar d = true
  · simp [hd]
  · simp only [Bool.not_eq_true] at hd
    simp only [hd, Bool.false_eq_true, if_false]
    decide

theorem sanitizeChars_id_of_safe {l : List Char} (h : ∀ c ∈ l, isSafeChar c = true) :
    sanitizeChars l = l := by
  induction l with
  | nil => rfl
  | cons c r ih =>
    rw [sanitizeChars, ih (fun d hd => h d (by simp [hd]))]
    simp [h c (by simp)]

theorem isDigit_isSafeChar {c : Char} (h : c.isDigit = true) : isSafeChar c = true := by
  simp [isSafeChar, Char.isAlphanum, h]

theorem fallbackName_chars_safe (t : Nat) : ∀ c ∈ (fallbackName t).data, isSafeChar c = true := by
  intro c hc
  rw [fallbackName] at hc
  simp only [String.data_append] at hc
  rcases List.mem_append.mp hc with h | h
  · rcases List.mem_append.mp h with h2 | h2
    · fin_cases h2 <;> decide
    · exact isDigit_isSafeChar (pyNatRepr_chars_digit t c h2)
  · fin_cases h <;> decide

theorem fallbackName_inj {t1 t2 : Nat} (h : fallbackName t1 = fallbackName t2) : t1 = t2 := by
  have hd := congrArg String.data h
  rw [fallbackName, fallbackName] at hd
  simp only [String.data_append] at hd
  have h1 := List.append_cancel_right hd
  have h2 := List.append_cancel_left h1
  exact pyNatRepr_inj (String.ext h2)

/-! ## Claim C3 -/

/-- C3 counterexample: on the URL path `/a%2Fb!!c.png` the code first
percent-decodes the whole path and then takes the basename (giving
`b!!c.png`), and replaces the two `!` by two underscores without collapsing
(giving `b__c.png`), whereas the sanitization claimed by C3 — extract the
last segment first, decode, replace and collapse — yields `a_b_c.png`. -/
theorem C3_counterexample :
    deriveFilenameBtc 0 "/a%2Fb!!c.png" = "b__c.png" ∧
    sanitizeSpecC3 "/a%2Fb!!c.png" = "a_b_c.png" ∧
    deriveFilenameBtc 0 "/a%2Fb!!c.png" ≠ sanitizeSpecC3 "/a%2Fb!!c.png" := by
  refine ⟨by decide, by decide, by decide⟩

/-- C3 amended: for every URL path whose decoded basename is non-degenerate,
the filename-sanitization step of `download_asset` percent-decodes the path,
takes the last segment of the decoded path, and replaces each character
outside `[A-Za-z0-9._-]` with one `_` (runs are not collapsed); the result
contains only characters of that class, and the output is independent of the
clock, hence the same on every call for the same input. -/
theorem C3_sanitize_no_collapse (t : Nat) (path : String)
    (h : fallbackTriggered (rawNameBtc path) = false) :
    deriveFilenameBtc t path
      = ⟨(rawNameBtc path).data.map (fun c => if isSafeChar c then c else '_')⟩ ∧
    (∀ c ∈ (deriveFilenameBtc t path).data, isSafeChar c = true) ∧
    ∀ t2 : Nat, deriveFilenameBtc t2 path = deriveFilenameBtc t path := by
  refine ⟨?_, ?_, ?_⟩
  · rw [deriveFilenameBtc]
    simp only [h, Bool.false_eq_true, if_false, sanitizeName, sanitizeChars_eq_map]
  · intro c hc
    rw [deriveFilenameBtc] at hc
    simp only [h, Bool.false_eq_true, if_false, sanitizeName] at hc
    exact sanitizeChars_all_safe _ c hc
  · intro t2
    rw [deriveFilenameBtc, deriveFilenameBtc]
    simp only [h, Bool.false_eq_true, if_false]

theorem C3_sanitize_no_collapse_witness :
    deriveFilenameBtc 0 "/y/My Image!!.PNG"
      = ⟨(rawNameBtc "/y/My Image!!.PNG").data.map (fun c => if isSafeChar c then c else '_')⟩ :=
  (C3_sanitize_no_collapse 0 "/y/My Image!!.PNG" (by decide)).1

/-! ## Claim C4 -/

theorem listIsPre_prefix_of_append :
    ∀ p q s : List Char, listIsPre (p ++ q) s = true → listIsPre p s = true := by
  intro p
  induction p with
  | nil => intro q s _; rfl
  | cons a as ih =>
    intro q s h
    cases s with
    | nil => simp [listIsPre] at h
    | cons b bs =>
      simp only [List.cons_append, listIsPre, Bool.and_eq_true] at h ⊢
      exact ⟨h.1, ih q bs h.2⟩

/-- C4 counterexample: `"httpx.png"` begins with neither the `http://` nor
the `https://` scheme, yet the resolution step of `download_asset` returns it
unchanged instead of joining it onto the page URL, because the source tests
only the four-character prefix `'http'`. -/
theorem C4_counterexample :
    strStartsWith "httpx.png" "http://" = false ∧
    strStartsWith "httpx.png" "https://" = false ∧
    resolve_url_btc (fun a b => a ++ "/" ++ b) "https://base" "httpx.png" (some "https://page")
      = "httpx.png" ∧
    resolve_url_btc (fun a b => a ++ "/" ++ b) "https://base" "httpx.png" (some "https://page")
      ≠ "https://page/httpx.png" := by
  refine ⟨by decide, by decide, by decide, by decide⟩

/-- C4 amended: references beginning with the four-character prefix `http`
(in particular every `http://` or `https://` URL) are returned unchanged —
so resolution is idempotent on them — while references NOT beginning with
that prefix resolve against the page URL when one is given and against the
base URL otherwise. -/
theorem C4_resolution (join : String → String → String) (baseUrl ref p : String) :
    ((strStartsWith ref "http://" = true ∨ strStartsWith ref "https://" = true) →
      ∀ pg : Option String,
        resolve_url_btc join baseUrl ref pg = ref ∧
        resolve_url_btc join baseUrl (resolve_url_btc join baseUrl ref pg) pg
          = resolve_url_btc join baseUrl ref pg) ∧
    (strStartsWith ref "http" = true →
      ∀ pg : Option String, resolve_url_btc join baseUrl ref pg = ref) ∧
    (strStartsWith ref "http" = false →
      resolve_url_btc join baseUrl ref (some p) = join p ref ∧
      resolve_url_btc join baseUrl ref none = join baseUrl ref) := by
  have habs : (strStartsWith ref "http://" = true ∨ strStartsWith ref "https://" = true) →
      strStartsWith ref "http" = true := by
    rintro (h | h)
    · exact listIsPre_prefix_of_append "http".data "://".data ref.data h
    · exact listIsPre_prefix_of_append "http".data "s://".data ref.data h
  have hid : strStartsWith ref "http" = true →
      ∀ pg : Option String, resolve_url_btc join baseUrl ref pg = ref := by
    intro h pg
    simp [resolve_url_btc, h]
  refine ⟨?_, hid, ?_⟩
  · intro h pg
    have h4 := habs h
    refine ⟨hid h4 pg, ?_⟩
    rw [hid h4 pg, hid h4 pg]
  · intro h
    constructor <;> simp [resolve_url_btc, h]

theorem C4_resolution_witness :
    resolve_url_btc (fun a b => a ++ "/" ++ b) "https://base" "https://a/b.png"
      (some "https://pg") = "https://a/b.png" ∧
    resolve_url_btc (fun a b => a ++ "/" ++ b) "https://base" "img/c.png"
      (some "https://pg") = "https://pg/img/c.png" := by
  constructor
  · exact ((C4_resolution (fun a b => a ++ "/" ++ b) "https://base" "https://a/b.png"
      "https://pg").1 (Or.inr (by decide)) (some "https://pg")).1
  · rw [((C4_resolution (fun a b => a ++ "/" ++ b) "https://base" "img/c.png"
      "https://pg").2.2 (by decide)).1]
    decide

/-! ## Claim C9 -/

/-- C9: when the extracted last segment is empty or has no dot, the derived
filename is the synthesized `image_<clock>.png`: non-empty, made only of
filesystem-safe characters of `[A-Za-z0-9._-]`, ending in the default
extension `.png`, and distinct for distinct clock readings. -/
theorem C9_fallback_name (t : Nat) (path : String)
    (h : fallbackTriggered (rawNameBtc path) = true) :
    deriveFilenameBtc t path = fallbackName t ∧
    deriveFilenameBtc t path ≠ "" ∧
    (∃ l, (deriveFilenameBtc t path).data = l ++ ('.' :: 'p' :: 'n' :: 'g' :: [])) ∧
    (∀ c ∈ (deriveFilenameBtc t path).data, isSafeChar c = true) ∧
    ∀ t2 : Nat, t2 ≠ t → deriveFilenameBtc t2 path ≠ deriveFilenameBtc t path := by
  have hmain : ∀ u : Nat, deriveFilenameBtc u path = fallbackName u := by
    intro u
    rw [deriveFilenameBtc]
    simp only [h, if_true]
    rw [sanitizeName, sanitizeChars_id_of_safe (fallbackName_chars_safe u)]
  refine ⟨hmain t, ?_, ?_, ?_, ?_⟩
  · rw [hmain t]
    intro hcon
    have := congrArg String.data hcon
    rw [fallbackName] at this
    simp only [String.data_append] at this
    simp at this
  · rw [hmain t, fallbackName]
    exact ⟨("image_" ++ pyNatRepr t).data, by simp [String.data_append]⟩
  · rw [hmain t]
    exact fallbackName_chars_safe t
  · intro t2 hne hcon
    rw [hmain t2, hmain t] at hcon
    exact hne (fallbackName_inj hcon)

theorem C9_fallback_name_witness :
    deriveFilenameBtc 5 "/y/" = fallbackName 5 ∧ fallbackName 5 = "image_5.png" :=
  ⟨(C9_fallback_name 5 "/y/" (by decide)).1, by decide⟩


/-! ## Claim C1 -/

/-- The reliable-baseline `download_asset_btc` is exactly the streamed
embedding run on outcomes without mid-stream failure. -/
theorem download_asset_btc_agrees (join : String → String → String)
    (net : String → FetchResult) (baseUrl outputDir : String) (st : St)
    (imgUrl : String) (pageUrl : Option String) :
    download_asset_btc join net baseUrl outputDir st imgUrl pageUrl
      = download_asset_btc_streamed join (fun u => (net u).toStream)
          baseUrl outputDir st imgUrl pageUrl := by
  by_cases h : imgUrl = ""
  · simp [download_asset_btc, download_asset_btc_streamed, h]
  · rw [download_asset_btc, download_asset_btc_streamed, if_neg h, if_neg h]
    dsimp only
    rcases hnet : net (resolve_url_btc join baseUrl imgUrl pageUrl) with ⟨s, b⟩ | _ <;> rfl

/-- The reliable-baseline `download_asset_eth` is exactly the streamed
embedding run on outcomes without mid-stream failure. -/
theorem download_asset_eth_agrees (join : String → String → String)
    (net : String → FetchResult) (outputDir : String) (st : St)
    (imgUrl pageUrl : String) :
    download_asset_eth join net outputDir st imgUrl pageUrl
      = download_asset_eth_streamed join (fun u => (net u).toStream)
          outputDir st imgUrl pageUrl := by
  by_cases h : imgUrl = ""
  · simp [download_asset_eth, download_asset_eth_streamed, h]
  · rw [download_asset_eth, download_asset_eth_streamed, if_neg h, if_neg h]
    dsimp only
    rcases hnet : net (resolve_url_eth join pageUrl imgUrl) with ⟨s, b⟩ | _ <;> rfl

/-- C1 counterexample: with a 200 response whose streamed body raises after
the chunk `"PART"` has been written, `download_asset` returns the original
reference — but the file created by `open(local_path, 'wb')` remains under
the assets directory, holding the partial body.  The claim's "writes no
file" fails for exactly the fetch/write-raise case it quantifies over. -/
theorem C1_counterexample :
    (download_asset_btc_streamed (fun a b => a ++ "/" ++ b)
        (fun _ => StreamOutcome.midstream "PART") "B" "out" ⟨[], 0, []⟩
        "https://a/b.png" none).1 = "https://a/b.png" ∧
    (download_asset_btc_streamed (fun a b => a ++ "/" ++ b)
        (fun _ => StreamOutcome.midstream "PART") "B" "out" ⟨[], 0, []⟩
        "https://a/b.png" none).2.fs.pathExists "out/assets/b.png" = true ∧
    (download_asset_btc_streamed (fun a b => a ++ "/" ++ b)
        (fun _ => StreamOutcome.midstream "PART") "B" "out" ⟨[], 0, []⟩
        "https://a/b.png" none).2.fs.readFile "out/assets/b.png" = some "PART" := by
  refine ⟨by decide, by decide, by decide⟩

/-- C1 amended: a non-empty asset reference whose resolved URL is actually
fetched (no cached file short-circuits the call) is returned exactly as it
was passed in whenever the fetch answers non-2xx, raises at the request, or
raises during the streamed write.  No file is written in the first two
cases; an error raised during the streamed 200-body write leaves the
partially written file under the assets directory. -/
theorem C1_failure_returns_original (join : String → String → String)
    (net : String → StreamOutcome) (baseUrl outputDir : String) (st : St)
    (imgUrl : String) (pageUrl : Option String)
    (hne : imgUrl ≠ "")
    (hnocache : st.fs.pathExists (assetsLocalPath outputDir
      (deriveFilenameBtc st.clock (urlPath (resolve_url_btc join baseUrl imgUrl pageUrl))))
      = false) :
    (∀ s body, net (resolve_url_btc join baseUrl imgUrl pageUrl) = StreamOutcome.ok s body →
      (s < 200 ∨ 300 ≤ s) →
      (download_asset_btc_streamed join net baseUrl outputDir st imgUrl pageUrl).1 = imgUrl ∧
      (download_asset_btc_streamed join net baseUrl outputDir st imgUrl pageUrl).2.fs = st.fs) ∧
    (net (resolve_url_btc join baseUrl imgUrl pageUrl) = StreamOutcome.exn →
      (download_asset_btc_streamed join net baseUrl outputDir st imgUrl pageUrl).1 = imgUrl ∧
      (download_asset_btc_streamed join net baseUrl outputDir st imgUrl pageUrl).2.fs = st.fs) ∧
    (∀ partialBody,
      net (resolve_url_btc join baseUrl imgUrl pageUrl) = StreamOutcome.midstream partialBody →
      (download_asset_btc_streamed join net baseUrl outputDir st imgUrl pageUrl).1 = imgUrl ∧
      (download_asset_btc_streamed join net baseUrl outputDir st imgUrl pageUrl).2.fs
        = st.fs.write (assetsLocalPath outputDir (deriveFilenameBtc st.clock
            (urlPath (resolve_url_btc join baseUrl imgUrl pageUrl)))) partialBody) := by
  have hfs1 : (if fallbackTriggered (rawNameBtc (urlPath
      (resolve_url_btc join baseUrl imgUrl pageUrl)))
      then { st with clock := st.clock + 1 } else st).fs = st.fs := by
    split <;> rfl
  refine ⟨?_, ?_, ?_⟩
  · intro s body hnet hs
    have hs2 : s ≠ 200 := by rcases hs with h | h <;> omega
    unfold download_asset_btc_streamed
    rw [if_neg hne]
    simp only [hfs1, hnocache, Bool.false_eq_true, if_false, hnet]
    simp [if_neg hs2]
  · intro hnet
    unfold download_asset_btc_streamed
    rw [if_neg hne]
    simp only [hfs1, hnocache, Bool.false_eq_true, if_false, hnet]
    exact ⟨trivial, trivial⟩
  · intro partialBody hnet
    unfold download_asset_btc_streamed
    rw [if_neg hne]
    simp only [hfs1, hnocache, Bool.false_eq_true, if_false, hnet]
    exact ⟨trivial, trivial⟩

theorem C1_failure_returns_original_witness :
    ((download_asset_btc_streamed (fun a b => a ++ "/" ++ b)
        (fun _ => StreamOutcome.ok 404 "") "B" "out"
        ⟨[], 0, []⟩ "https://a/b.png" none).1 = "https://a/b.png" ∧
     (download_asset_btc_streamed (fun a b => a ++ "/" ++ b)
        (fun _ => StreamOutcome.ok 404 "") "B" "out"
        ⟨[], 0, []⟩ "https://a/b.png" none).2.fs = []) ∧
    ((download_asset_btc_streamed (fun a b => a ++ "/" ++ b)
        (fun _ => StreamOutcome.exn) "B" "out"
        ⟨[], 0, []⟩ "https://a/b.png" none).1 = "https://a/b.png" ∧
     (download_asset_btc_streamed (fun a b => a ++ "/" ++ b)
        (fun _ => StreamOutcome.exn) "B" "out"
        ⟨[], 0, []⟩ "https://a/b.png" none).2.fs = []) :=
  ⟨(C1_failure_returns_original (fun a b => a ++ "/" ++ b)
      (fun _ => StreamOutcome.ok 404 "") "B" "out" ⟨[], 0, []⟩ "https://a/b.png" none
      (by decide) (by decide)).1 404 "" rfl (by omega),
   (C1_failure_returns_original (fun a b => a ++ "/" ++ b)
      (fun _ => StreamOutcome.exn) "B" "out" ⟨[], 0, []⟩ "https://a/b.png" none
      (by decide) (by decide)).2.1 rfl⟩

/-! ## Claim C2 -/

/-- C2: for a non-empty reference with a non-degenerate derived filename, if
the file already exists at `outputDir/assets/<sanitized filename>` then
`download_asset` returns the relative path at once with the state — in
particular the filesystem and the network-call trace — completely unchanged;
and running the materialization twice from the same state returns the same
value and leaves the same filesystem (idempotence). -/
theorem C2_cache_hit_idempotent (join : String → String → String)
    (net : String → FetchResult) (baseUrl outputDir : String) (st : St)
    (imgUrl : String) (pageUrl : Option String)
    (hne : imgUrl ≠ "")
    (hnf : fallbackTriggered
      (rawNameBtc (urlPath (resolve_url_btc join baseUrl imgUrl pageUrl))) = false) :
    (st.fs.pathExists (assetsLocalPath outputDir
        (sanitizeName (rawNameBtc (urlPath (resolve_url_btc join baseUrl imgUrl pageUrl))))) = true →
      download_asset_btc join net baseUrl outputDir st imgUrl pageUrl
        = (assetsRelPath (sanitizeName (rawNameBtc (urlPath
            (resolve_url_btc join baseUrl imgUrl pageUrl)))), st)) ∧
    ((download_asset_btc join net baseUrl outputDir
        (download_asset_btc join net baseUrl outputDir st imgUrl pageUrl).2 imgUrl pageUrl).1
      = (download_asset_btc join net baseUrl outputDir st imgUrl pageUrl).1 ∧
     (download_asset_btc join net baseUrl outputDir
        (download_asset_btc join net baseUrl outputDir st imgUrl pageUrl).2 imgUrl pageUrl).2.fs
      = (download_asset_btc join net baseUrl outputDir st imgUrl pageUrl).2.fs) := by
  have hder : ∀ u : Nat,
      deriveFilenameBtc u (urlPath (resolve_url_btc join baseUrl imgUrl pageUrl))
        = sanitizeName (rawNameBtc (urlPath (resolve_url_btc join baseUrl imgUrl pageUrl))) := by
    intro u
    rw [deriveFilenameBtc]
    simp only [hnf, Bool.false_eq_true, if_false]
  have hchar : ∀ s0 : St,
      download_asset_btc join net baseUrl outputDir s0 imgUrl pageUrl
        = if s0.fs.pathExists (assetsLocalPath outputDir (sanitizeName (rawNameBtc (urlPath
              (resolve_url_btc join baseUrl imgUrl pageUrl))))) = true then
            (assetsRelPath (sanitizeName (rawNameBtc (urlPath
              (resolve_url_btc join baseUrl imgUrl pageUrl)))), s0)
          else
            match net (resolve_url_btc join baseUrl imgUrl pageUrl) with
            | FetchResult.ok s body =>
              if s = 200 then
                (assetsRelPath (sanitizeName (rawNameBtc (urlPath
                   (resolve_url_btc join baseUrl imgUrl pageUrl)))),
                 { s0 with
                     fs := s0.fs.write (assetsLocalPath outputDir (sanitizeName (rawNameBtc
                       (urlPath (resolve_url_btc join baseUrl imgUrl pageUrl))))) body,
                     calls := s0.calls ++ [resolve_url_btc join baseUrl imgUrl pageUrl] })
              else (imgUrl, { s0 with
                     calls := s0.calls ++ [resolve_url_btc join baseUrl imgUrl pageUrl] })
            | FetchResult.exn =>
              (imgUrl, { s0 with
                 calls := s0.calls ++ [resolve_url_btc join baseUrl imgUrl pageUrl] }) := by
    intro s0
    unfold download_asset_btc
    rw [if_neg hne]
    simp only [hnf, Bool.false_eq_true, if_false, hder s0.clock]
  constructor
  · intro h
    rw [hchar st, if_pos h]
  · by_cases hex : st.fs.pathExists (assetsLocalPath outputDir (sanitizeName (rawNameBtc
        (urlPath (resolve_url_btc join baseUrl imgUrl pageUrl))))) = true
    · have h1 : download_asset_btc join net baseUrl outputDir st imgUrl pageUrl
          = (assetsRelPath (sanitizeName (rawNameBtc (urlPath
              (resolve_url_btc join baseUrl imgUrl pageUrl)))), st) := by
        rw [hchar st, if_pos hex]
      simp [h1]
    · rcases hnet : net (resolve_url_btc join baseUrl imgUrl pageUrl) with ⟨s, body⟩ | _
      · by_cases hs : s = 200
        · subst hs
          have h1 : download_asset_btc join net baseUrl outputDir st imgUrl pageUrl
              = (assetsRelPath (sanitizeName (rawNameBtc (urlPath
                  (resolve_url_btc join baseUrl imgUrl pageUrl)))),
                 { st with
                     fs := st.fs.write (assetsLocalPath outputDir (sanitizeName (rawNameBtc
                       (urlPath (resolve_url_btc join baseUrl imgUrl pageUrl))))) body,
                     calls := st.calls ++ [resolve_url_btc join baseUrl imgUrl pageUrl] }) := by
            rw [hchar st, if_neg hex, hnet]
            simp
          have h2 : ({ st with
                     fs := st.fs.write (assetsLocalPath outputDir (sanitizeName (rawNameBtc
                       (urlPath (resolve_url_btc join baseUrl imgUrl pageUrl))))) body,
                     calls := st.calls ++ [resolve_url_btc join baseUrl imgUrl pageUrl] } : St).fs.pathExists
              (assetsLocalPath outputDir (sanitizeName (rawNameBtc (urlPath
                (resolve_url_btc join baseUrl imgUrl pageUrl))))) = true :=
            FS.pathExists_write_self ..
          rw [h1]
          simp only [Prod.snd]
          rw [hchar _, if_pos h2]
          exact ⟨rfl, rfl⟩
        · have h1 : download_asset_btc join net baseUrl outputDir st imgUrl pageUrl
              = (imgUrl, { st with
                  calls := st.calls ++ [resolve_url_btc join baseUrl imgUrl pageUrl] }) := by
            rw [hchar st, if_neg hex, hnet]
            simp [hs]
          rw [h1]
          simp only [Prod.snd]
          rw [hchar _, if_neg hex, hnet]
          simp [hs]
      · have h1 : download_asset_btc join net baseUrl outputDir st imgUrl pageUrl
            = (imgUrl, { st with
                calls := st.calls ++ [resolve_url_btc join baseUrl imgUrl pageUrl] }) := by
          rw [hchar st, if_neg hex, hnet]
        rw [h1]
        simp only [Prod.snd]
        rw [hchar _, if_neg hex, hnet]
        simp

theorem C2_cache_hit_idempotent_witness :
    download_asset_btc (fun a b => a ++ "/" ++ b) (fun _ => FetchResult.exn) "B" "out"
      ⟨[("out/assets/b.png", "X")], 0, []⟩ "https://a/b.png" none
      = (assetsRelPath (sanitizeName (rawNameBtc (urlPath
          (resolve_url_btc (fun a b => a ++ "/" ++ b) "B" "https://a/b.png" none)))),
         ⟨[("out/assets/b.png", "X")], 0, []⟩) :=
  (C2_cache_hit_idempotent (fun a b => a ++ "/" ++ b) (fun _ => FetchResult.exn) "B" "out"
    ⟨[("out/assets/b.png", "X")], 0, []⟩ "https://a/b.png" none
    (by decide) (by decide)).1 (by decide)

/-! ## Claims C6, C7, C8 -/

/-- C6: when TOC resolution yields zero chapters — in particular when the
TOC page fetch itself fails — `scrape` returns immediately with the state
untouched: no index file, no chapter files, no assets are written. -/
theorem C6_empty_toc_writes_nothing (join : String → String → String)
    (netText : String → Option String) (netSoup : String → Option Soup)
    (net : String → FetchResult) (baseUrl readmeUrl tocUrl outputDir : String) (st : St) :
    (get_toc_btc netText join baseUrl readmeUrl = [] →
      scrape_btc join netText net baseUrl readmeUrl outputDir st = st) ∧
    (get_toc_eth netSoup join tocUrl = [] →
      scrape_eth join netSoup net tocUrl outputDir st = st) ∧
    (netText readmeUrl = none → get_toc_btc netText join baseUrl readmeUrl = []) ∧
    (netSoup tocUrl = none → get_toc_eth netSoup join tocUrl = []) := by
  refine ⟨?_, ?_, ?_, ?_⟩
  · intro h; simp [scrape_btc, h]
  · intro h; simp [scrape_eth, h]
  · intro h; simp [get_toc_btc, h]
  · intro h; simp [get_toc_eth, h]

theorem C6_empty_toc_writes_nothing_witness :
    scrape_btc (fun a b => a ++ b) (fun _ => none) (fun _ => FetchResult.exn)
      "B" "R" "out" ⟨[], 0, []⟩ = ⟨[], 0, []⟩ ∧
    scrape_eth (fun a b => a ++ b) (fun _ => none) (fun _ => FetchResult.exn)
      "T" "out" ⟨[], 0, []⟩ = ⟨[], 0, []⟩ := by
  constructor
  · exact (C6_empty_toc_writes_nothing (fun a b => a ++ b) (fun _ => none) (fun _ => none)
      (fun _ => FetchResult.exn) "B" "R" "T" "out" ⟨[], 0, []⟩).1
      ((C6_empty_toc_writes_nothing (fun a b => a ++ b) (fun _ => none) (fun _ => none)
        (fun _ => FetchResult.exn) "B" "R" "T" "out" ⟨[], 0, []⟩).2.2.1 rfl)
  · exact (C6_empty_toc_writes_nothing (fun a b => a ++ b) (fun _ => none) (fun _ => none)
      (fun _ => FetchResult.exn) "B" "R" "T" "out" ⟨[], 0, []⟩).2.1
      ((C6_empty_toc_writes_nothing (fun a b => a ++ b) (fun _ => none) (fun _ => none)
        (fun _ => FetchResult.exn) "B" "R" "T" "out" ⟨[], 0, []⟩).2.2.2 rfl)

/-- C7 counterexample: the btc crawler's `get_toc` keeps the TOC href
verbatim as the chapter filename, so a README linking twice to the same
`.md` file yields two chapter descriptors with the same target filename —
nothing disambiguates them, and the later chapter write would overwrite the
earlier one. -/
theorem C7_counterexample :
    ((get_toc_btc (fun _ => some "[A](01_x.md)\n[B](01_x.md)\n") (fun a b => a ++ b)
      "B/" "R").map Chapter.filename) = ["01_x.md", "01_x.md"] ∧
    ¬ ((get_toc_btc (fun _ => some "[A](01_x.md)\n[B](01_x.md)\n") (fun a b => a ++ b)
      "B/" "R").map Chapter.filename).Nodup := by
  refine ⟨by decide, by decide⟩

/-- C7 amended: in the eth and zk crawlers the orchestrator's
`f"{idx+1:02d}_"` index prefix makes the assigned chapter filenames pairwise
distinct for every chapter sequence; the btc crawler instead uses TOC hrefs
verbatim, which can collide (see the counterexample). -/
theorem C7_eth_filenames_distinct (l : List TocEntry) :
    ((assignFilenamesEth l).map Chapter.filename).Pairwise (fun a b => a ≠ b) := by
  rw [List.pairwise_iff_getElem]
  intro i j hi hj hij
  simp only [List.length_map, assignFilenamesEth, List.length_map, List.enum_length] at hi hj
  simp only [List.getElem_map, assignFilenamesEth, List.getElem_enum]
  intro hcon
  exact absurd (ethFilename_inj hcon) (by omega)

/-- C8: if the configured content selector matches nothing on a fetched
chapter page, `convert_to_markdown` returns the empty result, and the
chapter loop still writes the chapter file, whose body after the
title/provenance header is the explicit placeholder
`*Error: Could not extract content.*`. -/
theorem C8_placeholder_on_missing_content (join : String → String → String)
    (netSoup : String → Option Soup) (net : String → FetchResult)
    (outputDir : String) (st : St) (c : Chapter) (soup : Soup)
    (hsoup : netSoup c.url = some soup)
    (hsel : soup.content "main" = none) :
    (convert_to_markdown_eth join net outputDir soup "main" c.url st).1 = "" ∧
    (processChapterEth join netSoup net outputDir st c).fs.readFile
        (outputDir ++ "/" ++ c.filename)
      = some ("# " ++ c.title ++ "\n\nSource: " ++ c.url ++ "\n\n" ++
          "*Error: Could not extract content.*") := by
  have hconv : convert_to_markdown_eth join net outputDir soup "main" c.url st = ("", st) := by
    rw [convert_to_markdown_eth, hsel]
  refine ⟨by rw [hconv], ?_⟩
  unfold processChapterEth
  rw [hsoup]
  simp only [hconv]
  simp only [if_true]
  exact FS.readFile_write_self ..

theorem C8_placeholder_on_missing_content_witness :
    (processChapterEth (fun a b => a ++ b) (fun _ => some ⟨fun _ => none, none⟩)
        (fun _ => FetchResult.exn) "out" ⟨[], 0, []⟩ ⟨"T", "u", "01_t.md"⟩).fs.readFile
      ("out" ++ "/" ++ ("01_t.md" : String))
    = some ("# " ++ "T" ++ "\n\nSource: " ++ "u" ++ "\n\n" ++
        "*Error: Could not extract content.*") :=
  (C8_placeholder_on_missing_content (fun a b => a ++ b) (fun _ => some ⟨fun _ => none, none⟩)
    (fun _ => FetchResult.exn) "out" ⟨[], 0, []⟩ ⟨"T", "u", "01_t.md"⟩
    ⟨fun _ => none, none⟩ rfl rfl).2

/-! ## Claim C10 -/

theorem take3_eq_cons (l : List Char) (h : l.take 3 = ['d', 'm', '.']) :
    ∃ t, l = 'd' :: 'm' :: '.' :: t := by
  rcases l with _ | ⟨a, _ | ⟨b, _ | ⟨c, t⟩⟩⟩ <;> simp [List.take] at h
  obtain ⟨rfl, rfl, rfl⟩ := h
  exact ⟨t, rfl⟩

theorem parseHrefAux_ends_md :
    ∀ (rest racc h r3 : List Char), parseHrefAux racc rest = some (h, r3) →
      ∃ l, h = l ++ ['.', 'm', 'd'] := by
  intro rest
  induction rest with
  | nil => intro racc h r3 hp; simp [parseHrefAux] at hp
  | cons c r ih =>
    intro racc h r3 hp
    rw [parseHrefAux] at hp
    by_cases hc : c = ')' ∧ racc.take 3 = ['d', 'm', '.']
    · rw [if_pos hc] at hp
      simp only [Option.some.injEq, Prod.mk.injEq] at hp
      obtain ⟨t, rfl⟩ := take3_eq_cons racc hc.2
      refine ⟨t.reverse, ?_⟩
      rw [← hp.1]
      simp
    · rw [if_neg hc] at hp
      by_cases hn : c = '\n'
      · rw [if_pos hn] at hp; exact absurd hp (by simp)
      · rw [if_neg hn] at hp; exact ih _ _ _ hp

theorem parseBrkAux_ends_md :
    ∀ (rest racc : List Char) (t h : String) (r3 : List Char),
      parseBrkAux racc rest = some (t, h, r3) → ∃ l, h.data = l ++ ['.', 'm', 'd'] := by
  intro rest
  induction rest with
  | nil => intro racc t h r3 hp; simp [parseBrkAux] at hp
  | cons c r ih =>
    intro racc t h r3 hp
    rw [parseBrkAux] at hp
    by_cases hn : c = '\n'
    · rw [if_pos hn] at hp; exact absurd hp (by simp)
    · rw [if_neg hn] at hp
      by_cases hb : c = ']' ∧ r.head? = some '('
      · rw [if_pos hb] at hp
        rcases hh : parseHrefAux [] r.tail with _ | ⟨hl, rr⟩
        · rw [hh] at hp
          exact ih _ _ _ _ hp
        · rw [hh] at hp
          simp only [Option.some.injEq, Prod.mk.injEq] at hp
          obtain ⟨l, hl2⟩ := parseHrefAux_ends_md r.tail [] hl rr hh
          refine ⟨l, ?_⟩
          rw [← hp.2.1, hl2]
      · rw [if_neg hb] at hp
        exact ih _ _ _ _ hp

theorem findAllAux_ends_md :
    ∀ (fuel : Nat) (s : List Char) (t h : String), (t, h) ∈ findAllAux fuel s →
      ∃ l, h.data = l ++ ['.', 'm', 'd'] := by
  intro fuel
  induction fuel with
  | zero => intro s t h hm; simp [findAllAux] at hm
  | succ fuel ih =>
    intro s t h hm
    cases s with
    | nil => simp [findAllAux] at hm
    | cons c r =>
      rw [findAllAux] at hm
      by_cases hc : c = '['
      · rw [if_pos hc] at hm
        rcases hbrk : parseBrkAux [] r with _ | ⟨t0, h0, rest⟩
        · rw [hbrk] at hm
          exact ih _ _ _ hm
        · rw [hbrk] at hm
          rcases List.mem_cons.mp hm with h1 | h1
          · have h2 : h = h0 := congrArg Prod.snd h1
            subst h2
            exact parseBrkAux_ends_md r [] t0 h rest hbrk
          · exact ih _ _ _ h1
      · rw [if_neg hc] at hm
        exact ih _ _ _ hm

theorem findMdLinks_ends_md {text : String} {t h : String} (hm : (t, h) ∈ findMdLinks text) :
    ∃ l, h.data = l ++ ['.', 'm', 'd'] :=
  findAllAux_ends_md _ _ t h hm

theorem lstripParen_ends_md {s : String} {l : List Char} (h : s.data = l ++ ['.', 'm', 'd']) :
    ∃ l2, (lstripParen s).data = l2 ++ ['.', 'm', 'd'] := by
  show ∃ l2, s.data.dropWhile (fun c => c = '(') = l2 ++ ['.', 'm', 'd']
  rw [h, List.dropWhile_append]
  by_cases he : (l.dropWhile (fun c => c = '(')).isEmpty = true
  · rw [if_pos he]
    exact ⟨[], by simp [List.dropWhile]⟩
  · rw [if_neg he]
    exact ⟨l.dropWhile (fun c => c = '('), rfl⟩

theorem basename_of_ends_md {s : String} {l : List Char} (h : s.data = l ++ ['.', 'm', 'd']) :
    (∃ l2, (basename s).data = l2 ++ ['.', 'm', 'd']) ∧
    ∀ c ∈ (basename s).data, c ≠ '/' := by
  have hb : (basename s).data = ((s.data.reverse.takeWhile (fun c => c ≠ '/')).reverse) := rfl
  have hrev : s.data.reverse = 'd' :: 'm' :: '.' :: l.reverse := by
    rw [h]
    simp
  have htw : s.data.reverse.takeWhile (fun c => c ≠ '/')
      = 'd' :: 'm' :: '.' :: l.reverse.takeWhile (fun c => c ≠ '/') := by
    rw [hrev]
    have h3 := takeWhile_append_all (p := fun c => decide (c ≠ '/')) ['d', 'm', '.']
      l.reverse (by decide)
    simp only [List.cons_append, List.nil_append] at h3
    exact h3
  constructor
  · refine ⟨(l.reverse.takeWhile (fun c => c ≠ '/')).reverse, ?_⟩
    rw [hb, htw]
    simp
  · intro c hc
    rw [hb, htw] at hc
    rw [List.mem_reverse] at hc
    rcases List.mem_cons.mp hc with rfl | hc2
    · decide
    rcases List.mem_cons.mp hc2 with rfl | hc3
    · decide
    rcases List.mem_cons.mp hc3 with rfl | hc4
    · decide
    · have h5 := List.mem_takeWhile_imp hc4
      simp at h5
      exact h5


/-- C10: every chapter descriptor produced by the btc TOC resolver has a
filename ending in `.md` (the regex guarantees it), so the
`os.path.basename` reduction that `scrape` applies before writing yields a
non-empty, slash-free final component that is neither `.` nor `..`: the
chapter write path sits directly inside the output directory and cannot
escape it. -/
theorem C10_chapter_writes_stay_inside (netText : String → Option String)
    (join : String → String → String) (baseUrl readmeUrl outputDir : String) :
    ∀ c ∈ get_toc_btc netText join baseUrl readmeUrl,
      ∃ q : String,
        chapterWritePathBtc outputDir c = outputDir ++ "/" ++ q ∧
        q = basename c.filename ∧
        q ≠ "" ∧ q ≠ "." ∧ q ≠ ".." ∧ ('/' ∉ q.data) := by
  intro c hc
  rcases hnt : netText readmeUrl with _ | text
  · simp only [get_toc_btc, hnt] at hc
    simp at hc
  · simp only [get_toc_btc, hnt] at hc
    by_cases htext : text = ""
    · rw [if_pos htext] at hc; simp at hc
    · rw [if_neg htext] at hc
      obtain ⟨⟨t, h⟩, hmem, hsome⟩ := List.mem_filterMap.mp hc
      simp only at hsome
      split at hsome
      · exact absurd hsome (by simp)
      split at hsome
      · exact absurd hsome (by simp)
      have hceq : c = ⟨t, join baseUrl (lstripParen h), lstripParen h⟩ := by
        simpa using hsome.symm
      have hfn : c.filename = lstripParen h := by rw [hceq]
      obtain ⟨l, hl⟩ := findMdLinks_ends_md hmem
      obtain ⟨l2, hl2⟩ := lstripParen_ends_md hl
      rw [← hfn] at hl2
      obtain ⟨⟨l3, hl3⟩, hslash⟩ := basename_of_ends_md hl2
      refine ⟨basename c.filename, rfl, rfl, ?_, ?_, ?_, ?_⟩
      · intro hcon
        have := congrArg String.data hcon
        rw [hl3] at this
        simp at this
      · intro hcon
        have := congrArg List.length (congrArg String.data hcon)
        rw [hl3] at this
        simp at this
      · intro hcon
        have := congrArg List.length (congrArg String.data hcon)
        rw [hl3] at this
        simp at this
      · intro hcon
        exact hslash '/' hcon rfl

theorem C10_chapter_writes_stay_inside_witness :
    ∃ q : String,
      chapterWritePathBtc "out" ⟨"A", "Bsub/x.md", "sub/x.md"⟩ = "out" ++ "/" ++ q ∧
      q = basename "sub/x.md" ∧
      q ≠ "" ∧ q ≠ "." ∧ q ≠ ".." ∧ ('/' ∉ q.data) :=
  C10_chapter_writes_stay_inside (fun _ => some "[A](sub/x.md)") (fun a b => a ++ b)
    "B" "R" "out" ⟨"A", "Bsub/x.md", "sub/x.md"⟩ (by decide)

/-! ## Claim C5 -/
/-! ### Path disjointness for the eth output tree -/

theorem data_chapterPath (o s : String) : (o ++ "/" ++ s).data = o.data ++ '/' :: s.data := by
  rw [String.data_append, String.data_append]
  have h1 : ("/" : String).data = ['/'] := rfl
  rw [h1, List.append_assoc]
  rfl

theorem data_assetsPath (o f : String) : (assetsLocalPath o f).data
    = o.data ++ '/' :: 'a' :: 's' :: 's' :: 'e' :: 't' :: 's' :: '/' :: f.data := by
  rw [assetsLocalPath, String.data_append, String.data_append, String.data_append]
  have h1 : ("/assets" : String).data = ['/', 'a', 's', 's', 'e', 't', 's'] := rfl
  have h2 : ("/" : String).data = ['/'] := rfl
  rw [h1, h2, List.append_assoc, List.append_assoc]
  rfl

theorem data_readmePath (o : String) : (o ++ "/README.md").data
    = o.data ++ '/' :: 'R' :: 'E' :: 'A' :: 'D' :: 'M' :: 'E' :: '.' :: 'm' :: 'd' :: [] := by
  rw [String.data_append]

theorem chapterPath_ne_assetsPath (o : String) (idx : Nat) (title f : String) :
    o ++ "/" ++ ethFilename idx title ≠ assetsLocalPath o f := by
  intro hcon
  have hd := congrArg String.data hcon
  rw [data_chapterPath, data_assetsPath] at hd
  have h2 := List.append_cancel_left hd
  obtain ⟨c, cs, hfn, hdig⟩ := ethFilename_head_digit idx title
  rw [hfn] at h2
  simp only [List.cons.injEq] at h2
  obtain ⟨-, hc, -⟩ := h2
  rw [hc] at hdig
  exact absurd hdig (by decide)

theorem chapterPath_ne_readmePath (o : String) (idx : Nat) (title : String) :
    o ++ "/" ++ ethFilename idx title ≠ o ++ "/README.md" := by
  intro hcon
  have hd := congrArg String.data hcon
  rw [data_chapterPath, data_readmePath] at hd
  have h2 := List.append_cancel_left hd
  obtain ⟨c, cs, hfn, hdig⟩ := ethFilename_head_digit idx title
  rw [hfn] at h2
  simp only [List.cons.injEq] at h2
  obtain ⟨-, hc, -⟩ := h2
  rw [hc] at hdig
  exact absurd hdig (by decide)

theorem readmePath_ne_assetsPath (o : String) (f : String) :
    o ++ "/README.md" ≠ assetsLocalPath o f := by
  intro hcon
  have hd := congrArg String.data hcon
  rw [data_readmePath, data_assetsPath] at hd
  have h2 := List.append_cancel_left hd
  simp at h2

theorem chapterPath_inj {o : String} {i j : Nat} {t t' : String}
    (h : o ++ "/" ++ ethFilename i t = o ++ "/" ++ ethFilename j t') : i = j := by
  have hd := congrArg String.data h
  rw [data_chapterPath, data_chapterPath] at hd
  have h2 := List.append_cancel_left hd
  simp only [List.cons.injEq, true_and] at h2
  exact ethFilename_inj (String.ext h2)

/-! ### What the eth pipeline writes: preservation and monotonicity -/

theorem St.clockBump_fs (b : Bool) (st : St) :
    (if b then { st with clock := st.clock + 1 } else st).fs = st.fs := by
  cases b <;> rfl

theorem download_asset_eth_preserves (join : String → String → String)
    (net : String → FetchResult) (outputDir : String) (st : St) (src pageUrl p : String)
    (hp : ∀ fname : String, p ≠ assetsLocalPath outputDir fname) :
    ((download_asset_eth join net outputDir st src pageUrl).2).fs.readFile p
      = st.fs.readFile p := by
  by_cases hsrc : src = ""
  · simp [download_asset_eth, hsrc]
  · rw [download_asset_eth, if_neg hsrc]
    dsimp only
    split
    · split
      · rfl
      · split
        · split
          · exact FS.readFile_write_ne st.fs _ (hp _)
          · rfl
        · rfl
    · split
      · rfl
      · split
        · split
          · exact FS.readFile_write_ne st.fs _ (hp _)
          · rfl
        · rfl

theorem download_asset_eth_mono (join : String → String → String)
    (net : String → FetchResult) (outputDir : String) (st : St) (src pageUrl p : String)
    (h : st.fs.pathExists p = true) :
    ((download_asset_eth join net outputDir st src pageUrl).2).fs.pathExists p = true := by
  by_cases hsrc : src = ""
  · simpa [download_asset_eth, hsrc] using h
  · rw [download_asset_eth, if_neg hsrc]
    dsimp only
    split
    · split
      · exact h
      · split
        · split
          · exact FS.pathExists_write_mono st.fs _ _ h
          · exact h
        · exact h
    · split
      · exact h
      · split
        · split
          · exact FS.pathExists_write_mono st.fs _ _ h
          · exact h
        · exact h


theorem convertElems_preserves (join : String → String → String) (net : String → FetchResult)
    (outputDir pageUrl : String) (elems : List Elem) (st : St) (p : String)
    (hp : ∀ fname : String, p ≠ assetsLocalPath outputDir fname) :
    ((convertElems join net outputDir pageUrl elems st).2).fs.readFile p
      = st.fs.readFile p := by
  have main : ∀ (es : List Elem) (a : String) (s0 : St),
      ((es.foldl (fun acc e =>
        match e with
        | Elem.text s => (acc.1 ++ s, acc.2)
        | Elem.img src alt =>
          let res := download_asset_eth join net outputDir acc.2 src pageUrl
          (acc.1 ++ "![" ++ alt ++ "](" ++ res.1 ++ ")", res.2)
        | Elem.headerLink _ => acc) (a, s0)).2).fs.readFile p = s0.fs.readFile p := by
    intro es
    induction es with
    | nil => intro a s0; rfl
    | cons e es ih =>
      intro a s0
      rw [List.foldl_cons]
      cases e with
      | text s => exact ih (a ++ s) s0
      | img src alt =>
        rw [ih]
        exact download_asset_eth_preserves join net outputDir s0 src pageUrl p hp
      | headerLink s => exact ih a s0
  rw [convertElems]
  exact main elems "" st

theorem convertElems_mono (join : String → String → String) (net : String → FetchResult)
    (outputDir pageUrl : String) (elems : List Elem) (st : St) (p : String)
    (h : st.fs.pathExists p = true) :
    ((convertElems join net outputDir pageUrl elems st).2).fs.pathExists p = true := by
  have main : ∀ (es : List Elem) (a : String) (s0 : St), s0.fs.pathExists p = true →
      ((es.foldl (fun acc e =>
        match e with
        | Elem.text s => (acc.1 ++ s, acc.2)
        | Elem.img src alt =>
          let res := download_asset_eth join net outputDir acc.2 src pageUrl
          (acc.1 ++ "![" ++ alt ++ "](" ++ res.1 ++ ")", res.2)
        | Elem.headerLink _ => acc) (a, s0)).2).fs.pathExists p = true := by
    intro es
    induction es with
    | nil => intro a s0 h0; exact h0
    | cons e es ih =>
      intro a s0 h0
      rw [List.foldl_cons]
      cases e with
      | text s => exact ih (a ++ s) s0 h0
      | img src alt =>
        exact ih _ _ (download_asset_eth_mono join net outputDir s0 src pageUrl p h0)
      | headerLink s => exact ih a s0 h0
  rw [convertElems]
  exact main elems "" st h

theorem convert_to_markdown_eth_preserves (join : String → String → String)
    (net : String → FetchResult) (outputDir : String) (soup : Soup)
    (selector pageUrl : String) (st : St) (p : String)
    (hp : ∀ fname : String, p ≠ assetsLocalPath outputDir fname) :
    ((convert_to_markdown_eth join net outputDir soup selector pageUrl st).2).fs.readFile p
      = st.fs.readFile p := by
  rw [convert_to_markdown_eth]
  rcases hsel : soup.content selector with _ | elems
  · rfl
  · exact convertElems_preserves join net outputDir pageUrl _ st p hp

theorem convert_to_markdown_eth_mono (join : String → String → String)
    (net : String → FetchResult) (outputDir : String) (soup : Soup)
    (selector pageUrl : String) (st : St) (p : String)
    (h : st.fs.pathExists p = true) :
    ((convert_to_markdown_eth join net outputDir soup selector pageUrl st).2).fs.pathExists p
      = true := by
  rw [convert_to_markdown_eth]
  rcases hsel : soup.content selector with _ | elems
  · exact h
  · exact convertElems_mono join net outputDir pageUrl _ st p h

theorem processChapterEth_of_fail (join : String → String → String)
    (netSoup : String → Option Soup) (net : String → FetchResult) (outputDir : String)
    (st : St) (c : Chapter) (h : netSoup c.url = none) :
    processChapterEth join netSoup net outputDir st c = st := by
  rw [processChapterEth, h]

theorem processChapterEth_preserves (join : String → String → String)
    (netSoup : String → Option Soup) (net : String → FetchResult) (outputDir : String)
    (st : St) (c : Chapter) (p : String)
    (hp1 : p ≠ outputDir ++ "/" ++ c.filename)
    (hp2 : ∀ fname : String, p ≠ assetsLocalPath outputDir fname) :
    (processChapterEth join netSoup net outputDir st c).fs.readFile p
      = st.fs.readFile p := by
  rw [processChapterEth]
  rcases hns : netSoup c.url with _ | soup
  · rfl
  · dsimp only
    rw [FS.readFile_write_ne _ _ hp1]
    exact convert_to_markdown_eth_preserves join net outputDir soup "main" c.url st p hp2

theorem processChapterEth_mono (join : String → String → String)
    (netSoup : String → Option Soup) (net : String → FetchResult) (outputDir : String)
    (st : St) (c : Chapter) (p : String) (h : st.fs.pathExists p = true) :
    (processChapterEth join netSoup net outputDir st c).fs.pathExists p = true := by
  rw [processChapterEth]
  rcases hns : netSoup c.url with _ | soup
  · exact h
  · dsimp only
    exact FS.pathExists_write_mono _ _ _
      (convert_to_markdown_eth_mono join net outputDir soup "main" c.url st p h)

theorem processChapterEth_writes_own (join : String → String → String)
    (netSoup : String → Option Soup) (net : String → FetchResult) (outputDir : String)
    (st : St) (c : Chapter) (soup : Soup) (h : netSoup c.url = some soup) :
    (processChapterEth join netSoup net outputDir st c).fs.pathExists
      (outputDir ++ "/" ++ c.filename) = true := by
  rw [processChapterEth, h]
  dsimp only
  exact FS.pathExists_write_self ..

theorem foldChapters_preserves (join : String → String → String)
    (netSoup : String → Option Soup) (net : String → FetchResult) (outputDir : String)
    (p : String) (hp2 : ∀ fname : String, p ≠ assetsLocalPath outputDir fname) :
    ∀ (chs : List Chapter) (st : St),
      (∀ c ∈ chs, netSoup c.url = none ∨ p ≠ outputDir ++ "/" ++ c.filename) →
      ((chs.foldl (processChapterEth join netSoup net outputDir) st).fs.readFile p
        = st.fs.readFile p) := by
  intro chs
  induction chs with
  | nil => intro st _; rfl
  | cons c cs ih =>
    intro st hc
    rw [List.foldl_cons]
    rw [ih _ (fun d hd => hc d (by simp [hd]))]
    rcases hc c (by simp) with h | h
    · rw [processChapterEth_of_fail join netSoup net outputDir st c h]
    · exact processChapterEth_preserves join netSoup net outputDir st c p h hp2

theorem foldChapters_mono (join : String → String → String)
    (netSoup : String → Option Soup) (net : String → FetchResult) (outputDir : String)
    (p : String) :
    ∀ (chs : List Chapter) (st : St), st.fs.pathExists p = true →
      ((chs.foldl (processChapterEth join netSoup net outputDir) st).fs.pathExists p = true) := by
  intro chs
  induction chs with
  | nil => intro st h; exact h
  | cons c cs ih =>
    intro st h
    rw [List.foldl_cons]
    exact ih _ (processChapterEth_mono join netSoup net outputDir st c p h)


theorem assignFilenamesEth_length (l : List TocEntry) :
    (assignFilenamesEth l).length = l.length := by
  simp [assignFilenamesEth]

theorem assignFilenamesEth_getElem (l : List TocEntry) (i : Nat)
    (h1 : i < (assignFilenamesEth l).length) (h2 : i < l.length) :
    (assignFilenamesEth l).get ⟨i, h1⟩
      = ⟨(l.get ⟨i, h2⟩).title, (l.get ⟨i, h2⟩).url, ethFilename i (l.get ⟨i, h2⟩).title⟩ := by
  simp [assignFilenamesEth, List.get_eq_getElem, List.getElem_map, List.getElem_enum]

theorem assignFilenamesEth_titles (l : List TocEntry) :
    (assignFilenamesEth l).map Chapter.title = l.map TocEntry.title := by
  rw [assignFilenamesEth, List.map_map]
  conv_rhs => rw [← List.enum_map_snd l, List.map_map]
  rfl

theorem scrape_eth_eq (join : String → String → String) (netSoup : String → Option Soup)
    (net : String → FetchResult) (tocUrl outputDir : String) (st : St)
    (hne : get_toc_eth netSoup join tocUrl ≠ []) :
    scrape_eth join netSoup net tocUrl outputDir st
      = (ethChapters netSoup join tocUrl).foldl
          (processChapterEth join netSoup net outputDir)
          { st with fs := (st.fs.write (outputDir ++ "/README.md")
              (indexContentEth tocUrl (ethChapters netSoup join tocUrl))) } := by
  rw [scrape_eth]
  dsimp only
  rw [if_neg hne]
  rfl

/-- C5: with a non-empty TOC and some chapter `k` whose page fetch fails,
the eth `scrape` run still terminates normally: the index file holds exactly
the content derived from the TOC alone — its chapter lines list all titles in
TOC order (conjunct 2: filename assignment preserves the titles and their
order) — the failed chapter's file is never created, and every chapter whose
fetch succeeds has its file in the final tree. -/
theorem C5_partial_failure (join : String → String → String)
    (netSoup : String → Option Soup) (net : String → FetchResult)
    (tocUrl outputDir : String) (st : St) (k : Nat)
    (hne : get_toc_eth netSoup join tocUrl ≠ [])
    (hk : k < (ethChapters netSoup join tocUrl).length)
    (hfail : netSoup (((ethChapters netSoup join tocUrl).get ⟨k, hk⟩).url) = none)
    (hinit : st.fs.pathExists
      (outputDir ++ "/" ++ ((ethChapters netSoup join tocUrl).get ⟨k, hk⟩).filename)
      = false) :
    ((scrape_eth join netSoup net tocUrl outputDir st).fs.readFile (outputDir ++ "/README.md")
        = some (indexContentEth tocUrl (ethChapters netSoup join tocUrl))) ∧
    ((ethChapters netSoup join tocUrl).map Chapter.title
        = (get_toc_eth netSoup join tocUrl).map TocEntry.title) ∧
    ((scrape_eth join netSoup net tocUrl outputDir st).fs.pathExists
        (outputDir ++ "/" ++ ((ethChapters netSoup join tocUrl).get ⟨k, hk⟩).filename)
      = false) ∧
    (∀ j (hj : j < (ethChapters netSoup join tocUrl).length),
        netSoup (((ethChapters netSoup join tocUrl).get ⟨j, hj⟩).url) ≠ none →
        (scrape_eth join netSoup net tocUrl outputDir st).fs.pathExists
          (outputDir ++ "/" ++ ((ethChapters netSoup join tocUrl).get ⟨j, hj⟩).filename)
          = true) := by
  have hlen : (ethChapters netSoup join tocUrl).length
      = (get_toc_eth netSoup join tocUrl).length := assignFilenamesEth_length _
  have hget : ∀ j (hj : j < (ethChapters netSoup join tocUrl).length)
      (hj2 : j < (get_toc_eth netSoup join tocUrl).length),
      (ethChapters netSoup join tocUrl).get ⟨j, hj⟩
        = ⟨((get_toc_eth netSoup join tocUrl).get ⟨j, hj2⟩).title,
           ((get_toc_eth netSoup join tocUrl).get ⟨j, hj2⟩).url,
           ethFilename j ((get_toc_eth netSoup join tocUrl).get ⟨j, hj2⟩).title⟩ :=
    fun j hj hj2 => assignFilenamesEth_getElem _ j hj hj2
  have hscr := scrape_eth_eq join netSoup net tocUrl outputDir st hne
  refine ⟨?_, assignFilenamesEth_titles _, ?_, ?_⟩
  · have hforall : ∀ c ∈ ethChapters netSoup join tocUrl,
        netSoup c.url = none ∨ outputDir ++ "/README.md" ≠ outputDir ++ "/" ++ c.filename := by
      intro c hmem
      obtain ⟨j, hj, hc⟩ := List.mem_iff_getElem.mp hmem
      right
      have hc2 : (ethChapters netSoup join tocUrl).get ⟨j, hj⟩ = c := hc
      rw [← hc2, hget j hj (by omega)]
      exact Ne.symm (chapterPath_ne_readmePath outputDir j _)
    rw [hscr, foldChapters_preserves join netSoup net outputDir (outputDir ++ "/README.md")
      (readmePath_ne_assetsPath outputDir) (ethChapters netSoup join tocUrl) _ hforall]
    exact FS.readFile_write_self ..
  · have hkq : k < (get_toc_eth netSoup join tocUrl).length := by omega
    have hpne : ∀ fname : String,
        outputDir ++ "/" ++ ((ethChapters netSoup join tocUrl).get ⟨k, hk⟩).filename
          ≠ assetsLocalPath outputDir fname := by
      intro fname
      rw [hget k hk hkq]
      exact chapterPath_ne_assetsPath outputDir k _ fname
    have hforall : ∀ c ∈ ethChapters netSoup join tocUrl,
        netSoup c.url = none ∨
          outputDir ++ "/" ++ ((ethChapters netSoup join tocUrl).get ⟨k, hk⟩).filename
            ≠ outputDir ++ "/" ++ c.filename := by
      intro c hmem
      obtain ⟨j, hj, hc⟩ := List.mem_iff_getElem.mp hmem
      have hc2 : (ethChapters netSoup join tocUrl).get ⟨j, hj⟩ = c := hc
      by_cases hjk : j = k
      · left
        subst hjk
        rw [← hc2]
        exact hfail
      · right
        rw [← hc2, hget j hj (by omega), hget k hk hkq]
        intro hcon
        exact hjk (chapterPath_inj hcon).symm
    have h1 := foldChapters_preserves join netSoup net outputDir
      (outputDir ++ "/" ++ ((ethChapters netSoup join tocUrl).get ⟨k, hk⟩).filename)
      hpne (ethChapters netSoup join tocUrl)
      { st with fs := (st.fs.write (outputDir ++ "/README.md")
          (indexContentEth tocUrl (ethChapters netSoup join tocUrl))) } hforall
    have h2 : ({ st with fs := (st.fs.write (outputDir ++ "/README.md")
          (indexContentEth tocUrl (ethChapters netSoup join tocUrl))) } : St).fs.readFile
          (outputDir ++ "/" ++ ((ethChapters netSoup join tocUrl).get ⟨k, hk⟩).filename)
        = st.fs.readFile
            (outputDir ++ "/" ++ ((ethChapters netSoup join tocUrl).get ⟨k, hk⟩).filename) := by
      apply FS.readFile_write_ne
      rw [hget k hk hkq]
      exact chapterPath_ne_readmePath outputDir k _
    rw [hscr, FS.pathExists, h1, h2]
    rw [FS.pathExists] at hinit
    exact hinit
  · intro j hj hok
    rw [hscr]
    rcases hns : netSoup (((ethChapters netSoup join tocUrl).get ⟨j, hj⟩).url) with _ | soup
    · exact absurd hns hok
    · have hsplit : ethChapters netSoup join tocUrl
          = (ethChapters netSoup join tocUrl).take j
            ++ (ethChapters netSoup join tocUrl).get ⟨j, hj⟩
              :: (ethChapters netSoup join tocUrl).drop (j + 1) := by
        conv_lhs => rw [← List.take_append_drop j (ethChapters netSoup join tocUrl)]
        rw [List.drop_eq_getElem_cons hj]
        rfl
      have hfold : ∀ s1 : St,
          (ethChapters netSoup join tocUrl).foldl
              (processChapterEth join netSoup net outputDir) s1
            = ((ethChapters netSoup join tocUrl).drop (j + 1)).foldl
                (processChapterEth join netSoup net outputDir)
                (processChapterEth join netSoup net outputDir
                  (((ethChapters netSoup join tocUrl).take j).foldl
                    (processChapterEth join netSoup net outputDir) s1)
                  ((ethChapters netSoup join tocUrl).get ⟨j, hj⟩)) := by
        intro s1
        conv_lhs => rw [hsplit]
        rw [List.foldl_append, List.foldl_cons]
      rw [hfold]
      apply foldChapters_mono
      exact processChapterEth_writes_own join netSoup net outputDir _ _ soup hns

theorem C5_partial_failure_witness :
    (scrape_eth (fun a b => a ++ "/" ++ b)
        (fun u =>
          if u = "T" then
            some ⟨fun _ => none,
              some [(some "c1", "One"), (some "c2", "Two"), (some "c3", "Three")]⟩
          else if u = "T/c1" then some ⟨fun _ => some [Elem.text "hello"], none⟩
          else if u = "T/c3" then some ⟨fun _ => some [Elem.text "bye"], none⟩
          else none)
        (fun _ => FetchResult.exn) "T" "out" ⟨[], 0, []⟩).fs.pathExists
      ("out" ++ "/" ++
        ((ethChapters
          (fun u =>
            if u = "T" then
              some ⟨fun _ => none,
                some [(some "c1", "One"), (some "c2", "Two"), (some "c3", "Three")]⟩
            else if u = "T/c1" then some ⟨fun _ => some [Elem.text "hello"], none⟩
            else if u = "T/c3" then some ⟨fun _ => some [Elem.text "bye"], none⟩
            else none)
          (fun a b => a ++ "/" ++ b) "T").get ⟨1, by decide⟩).filename) = false ∧
    (scrape_eth (fun a b => a ++ "/" ++ b)
        (fun u =>
          if u = "T" then
            some ⟨fun _ => none,
              some [(some "c1", "One"), (some "c2", "Two"), (some "c3", "Three")]⟩
          else if u = "T/c1" then some ⟨fun _ => some [Elem.text "hello"], none⟩
          else if u = "T/c3" then some ⟨fun _ => some [Elem.text "bye"], none⟩
          else none)
        (fun _ => FetchResult.exn) "T" "out" ⟨[], 0, []⟩).fs.pathExists
      ("out" ++ "/" ++
        ((ethChapters
          (fun u =>
            if u = "T" then
              some ⟨fun _ => none,
                some [(some "c1", "One"), (some "c2", "Two"), (some "c3", "Three")]⟩
            else if u = "T/c1" then some ⟨fun _ => some [Elem.text "hello"], none⟩
            else if u = "T/c3" then some ⟨fun _ => some [Elem.text "bye"], none⟩
            else none)
          (fun a b => a ++ "/" ++ b) "T").get ⟨0, by decide⟩).filename) = true :=
  ⟨(C5_partial_failure (fun a b => a ++ "/" ++ b)
      (fun u =>
        if u = "T" then
          some ⟨fun _ => none,
            some [(some "c1", "One"), (some "c2", "Two"), (some "c3", "Three")]⟩
        else if u = "T/c1" then some ⟨fun _ => some [Elem.text "hello"], none⟩
        else if u = "T/c3" then some ⟨fun _ => some [Elem.text "bye"], none⟩
        else none)
      (fun _ => FetchResult.exn) "T" "out" ⟨[], 0, []⟩ 1
      (by decide) (by decide) rfl rfl).2.2.1,
   (C5_partial_failure (fun a b => a ++ "/" ++ b)
      (fun u =>
        if u = "T" then
          some ⟨fun _ => none,
            some [(some "c1", "One"), (some "c2", "Two"), (some "c3", "Three")]⟩
        else if u = "T/c1" then some ⟨fun _ => some [Elem.text "hello"], none⟩
        else if u = "T/c3" then some ⟨fun _ => some [Elem.text "bye"], none⟩
        else none)
      (fun _ => FetchResult.exn) "T" "out" ⟨[], 0, []⟩ 1
      (by decide) (by decide) rfl rfl).2.2.2 0 (by decide)
      (by intro hcon; exact Option.noConfusion hcon)⟩

end Scrawler
